import Mathlib

/-!
# Formal model of the video-collage layout engine (`src/layout.ts`)

The layout engine is a set of pure functions over JavaScript numbers.
We embed JavaScript numbers as exact rationals (`ℚ`):

* `Math.floor` / `Math.ceil` / `Math.round` become `jsFloor` / `jsCeil` /
  `jsRound` (exact on rationals; `Math.round` rounds half toward +∞, which
  is JavaScript's behaviour);
* the `%` operator on numbers becomes `jsFmod` (remainder with the sign of
  the dividend, defined through truncation toward zero, as in JavaScript);
* `Math.ceil(Math.sqrt(n))` for a natural item count `n` becomes
  `natCeilSqrt n`.  For every realistic count (`n < 2 ^ 52`) the
  double-precision `Math.sqrt` is correctly rounded and cannot cross an
  integer boundary, so the composite is exactly the mathematical
  `⌈√n⌉`; `natCeilSqrt` computes that number;
* `Math.sqrt` applied to a non-integer quantity (only used to pick target
  row counts and a target shelf height, never echoed into an output field
  that any verified property depends on) becomes `ratSqrt`, a rational
  floor-approximation of the square root.  Every theorem below that
  involves it holds for arbitrary values of the approximated quantity.

Division by zero in JavaScript yields `Infinity`/`NaN`; in `ℚ` it yields
`0`.  The two models only differ on degenerate internal quantities that are
never observable in the properties proved here (e.g. the grid cell size
when the item count is zero, in which case no cell is emitted at all).
-/

/-- `Math.floor`, exactly, as a map `ℚ → ℚ`. -/
def jsFloor (q : ℚ) : ℚ := (⌊q⌋ : ℚ)

/-- `Math.ceil`, exactly, as a map `ℚ → ℚ`. -/
def jsCeil (q : ℚ) : ℚ := (⌈q⌉ : ℚ)

/-- JavaScript truncation toward zero (the rounding used by the `%`
operator on numbers). -/
def jsTrunc (q : ℚ) : ℚ := if 0 ≤ q then (⌊q⌋ : ℚ) else (-⌊-q⌋ : ℚ)

/-- The JavaScript `%` operator on numbers: remainder with the sign of the
dividend, `a - b * trunc (a / b)`. -/
def jsFmod (a b : ℚ) : ℚ := a - b * jsTrunc (a / b)

/-- `Math.round`: round half toward positive infinity. -/
def jsRound (q : ℚ) : ℚ := jsFloor (q + 1 / 2)

/-- `Math.ceil (Math.sqrt n)` for a natural number `n` (exact for every
count below `2 ^ 52`, see the header comment). -/
def natCeilSqrt (n : ℕ) : ℕ :=
  if Nat.sqrt n * Nat.sqrt n = n then Nat.sqrt n else Nat.sqrt n + 1

/-- Rational floor-approximation of `Math.sqrt` on non-integer inputs
(`√(n/d) = √(n·d)/d ≈ ⌊√(n·d)⌋/d`).  No verified property depends on the
value this returns; see the header comment. -/
def ratSqrt (q : ℚ) : ℚ :=
  if q ≤ 0 then 0 else ((Nat.sqrt (q.num.toNat * q.den) : ℚ) / (q.den : ℚ))

/-- `Math.max(...list)` over a non-empty list (the empty case, which
JavaScript maps to `-Infinity`, is never reached by the engine). -/
def jsMaxList (l : List ℚ) : ℚ :=
  match l with
  | [] => 0
  | h :: t => t.foldl max h

/-- Input unit of the engine (`LayoutItem` in `layout.ts`): a stable
`index`, an `aspect` ratio (width/height), and an optional `area` weight
consulted only by the treemap algorithm. -/
structure LayoutItem where
  index : Int
  aspect : ℚ
  area : Option ℚ := none
deriving Repr, DecidableEq

/-- Output unit of the engine (`CellPosition` in `types.ts`). -/
structure CellPosition where
  x : ℚ
  y : ℚ
  width : ℚ
  height : ℚ
  mediaIndex : Int
deriving Repr, DecidableEq

/-- Configuration of one layout invocation (`LayoutOptions` in
`layout.ts`).  The algorithm selector is modelled as a raw string since the
dispatcher's `default` branch is reachable for any unrecognized tag; column
and row counts are natural numbers (JavaScript array allocation requires an
integral length).  `gap = none` models an absent `gap` (the dispatcher
defaults it to `0`). -/
structure LayoutOptions where
  type : String
  canvasWidth : ℚ
  canvasHeight : ℚ
  gap : Option ℚ := none
  columns : Option ℕ := none
  rows : Option ℕ := none
  padding : Option ℚ := none
deriving Repr, DecidableEq

/-- `calculateGridLayout` from `layout.ts`.  `!columns || !rows` in
JavaScript is true when either count is absent or `0`, which is
`columns.getD 0 = 0 ∨ rows.getD 0 = 0` here. -/
def calculateGridLayout (mediaCount : ℕ) (canvasWidth canvasHeight : ℚ)
    (columns rows : Option ℕ) (gap : ℚ) : List CellPosition :=
  let cr : ℚ × ℚ :=
    if columns.getD 0 = 0 ∨ rows.getD 0 = 0 then
      let c := natCeilSqrt mediaCount
      ((c : ℚ), jsCeil ((mediaCount : ℚ) / (c : ℚ)))
    else ((columns.getD 0 : ℚ), (rows.getD 0 : ℚ))
  let cellWidth := jsFloor ((canvasWidth - gap * (cr.1 + 1)) / cr.1)
  let cellHeight := jsFloor ((canvasHeight - gap * (cr.2 + 1)) / cr.2)
  (List.range mediaCount).map fun (i : ℕ) =>
    { x := gap + jsFmod (i : ℚ) cr.1 * (cellWidth + gap)
      y := gap + jsFloor ((i : ℚ) / cr.1) * (cellHeight + gap)
      width := cellWidth
      height := cellHeight
      mediaIndex := (i : Int) }

/-- `clampPositions` from `layout.ts`: per-rectangle clamp of `x`/`y` into
`[0, canvas - size]` and cap of `width`/`height` at `canvas - original
coordinate` (note: the cap reads the rectangle's *original* `x`/`y`, not
the clamped one — JavaScript object spread evaluates all fields from the
same source record). -/
def clampCell (canvasWidth canvasHeight : ℚ) (pos : CellPosition) :
    CellPosition :=
  { x := max 0 (min pos.x (canvasWidth - pos.width))
    y := max 0 (min pos.y (canvasHeight - pos.height))
    width := min pos.width (canvasWidth - pos.x)
    height := min pos.height (canvasHeight - pos.y)
    mediaIndex := pos.mediaIndex }

/-- `clampPositions` is `positions.map(...)` of the per-rectangle clamp. -/
def clampPositions (positions : List CellPosition)
    (canvasWidth canvasHeight : ℚ) : List CellPosition :=
  positions.map (clampCell canvasWidth canvasHeight)

/-- `mediaToLayoutItem` from `layout.ts` (the media descriptor is reduced
to its width and height, the only fields read). -/
def mediaToLayoutItem (info : Option (ℚ × ℚ)) (index : Int) : LayoutItem :=
  { index := index
    aspect := match info with
      | some wh => wh.1 / wh.2
      | none => 16 / 9 }

/-- `partitionIntoRows` from `layout.ts`: stable sort by aspect ratio
descending (the JavaScript comparator `(a, b) => b.aspect - a.aspect`),
then greedy chunking into rows of `targetItemsPerRow` items, with a final
single-item orphan merged into the previous row when that row is not
already over target.  The `gap` parameter is accepted but never read, as
in the source. -/
def partitionStep (targetItemsPerRow : ℚ)
    (st : List (List LayoutItem) × List LayoutItem) (item : LayoutItem) :
    List (List LayoutItem) × List LayoutItem :=
  let cur := st.2 ++ [item]
  if targetItemsPerRow ≤ (cur.length : ℚ) then (st.1 ++ [cur], [])
  else (st.1, cur)

/-- `partitionIntoRows`, assembled from the sort, the chunking fold and
the orphan merge (`rows[rows.length - 1]` is `rows.getLast?.getD []`). -/
def partitionIntoRows (items : List LayoutItem)
    (canvasWidth canvasHeight gap : ℚ) : List (List LayoutItem) :=
  let _ := gap
  let sorted := items.mergeSort (fun a b => b.aspect ≤ a.aspect)
  let canvasAspect := canvasWidth / canvasHeight
  let avgAspect := ((items.map (·.aspect)).sum) / (items.length : ℚ)
  let targetRows :=
    max 1 (jsRound (ratSqrt ((items.length : ℚ) / (canvasAspect / avgAspect))))
  let targetItemsPerRow := jsCeil ((items.length : ℚ) / targetRows)
  let st := sorted.foldl (partitionStep targetItemsPerRow) ([], [])
  let rows := st.1
  let currentRow := st.2
  if currentRow.isEmpty then rows
  else if currentRow.length = 1 ∧ ¬ rows.isEmpty then
    let prevRow := rows.getLast?.getD []
    if (prevRow.length : ℚ) ≤ targetItemsPerRow + 1 then
      rows.dropLast ++ [prevRow ++ currentRow]
    else rows ++ [currentRow]
  else rows ++ [currentRow]

/-- Inner loop of the multi-item branch of `calculateDynamicLayout`: walk
one row left to right; every cell takes `floor(rowHeight * aspect)` width
except the last, which is stretched to the canvas's right edge. -/
def dynamicRowCells (row : List LayoutItem) (canvasWidth gap rowHeight : ℚ)
    (currentX currentY : ℚ) : List CellPosition :=
  match row with
  | [] => []
  | [item] =>
    [{ x := currentX, y := currentY, width := canvasWidth - gap - currentX,
       height := rowHeight, mediaIndex := item.index }]
  | item :: rest =>
    let cellWidth := jsFloor (rowHeight * item.aspect)
    { x := currentX, y := currentY, width := cellWidth, height := rowHeight,
      mediaIndex := item.index }
      :: dynamicRowCells rest canvasWidth gap rowHeight
          (currentX + cellWidth + gap) currentY

/-- Outer loop of the multi-item branch of `calculateDynamicLayout`: one
row after another, advancing `y` by `rowHeight + gap` (an empty row is
skipped without advancing, as the source's `continue` does). -/
def dynamicRowsGo (rows : List (List LayoutItem))
    (canvasWidth gap scaleFactor : ℚ) (currentY : ℚ) : List CellPosition :=
  match rows with
  | [] => []
  | row :: rest =>
    if row.isEmpty then dynamicRowsGo rest canvasWidth gap scaleFactor currentY
    else
      let totalGaps := gap * ((row.length : ℚ) - 1)
      let availableWidth := canvasWidth - gap * 2 - totalGaps
      let totalAspect := (row.map (·.aspect)).sum
      let rowHeight := jsFloor ((availableWidth / totalAspect) * scaleFactor)
      dynamicRowCells row canvasWidth gap rowHeight gap currentY
        ++ dynamicRowsGo rest canvasWidth gap scaleFactor
            (currentY + rowHeight + gap)

/-- `calculateDynamicLayout` from `layout.ts`. -/
def calculateDynamicLayout (items : List LayoutItem)
    (canvasWidth canvasHeight gap : ℚ) : List CellPosition :=
  match items with
  | [] => []
  | [item] =>
    let canvasAspect := canvasWidth / canvasHeight
    if canvasAspect < item.aspect then
      let width := canvasWidth - gap * 2
      let height := jsFloor (width / item.aspect)
      [{ x := gap, y := jsFloor ((canvasHeight - height) / 2),
         width := width, height := height, mediaIndex := item.index }]
    else
      let height := canvasHeight - gap * 2
      let width := jsFloor (height * item.aspect)
      [{ x := jsFloor ((canvasWidth - width) / 2), y := gap,
         width := width, height := height, mediaIndex := item.index }]
  | _ =>
    let rows := partitionIntoRows items canvasWidth canvasHeight gap
    let availableHeight := canvasHeight - gap * ((rows.length : ℚ) + 1)
    let totalIdealHeight := (rows.map (fun row =>
        (canvasWidth - gap * 2 - gap * ((row.length : ℚ) - 1))
          / (row.map (·.aspect)).sum)).sum
    let scaleFactor := availableHeight / totalIdealHeight
    dynamicRowsGo rows canvasWidth gap scaleFactor gap

/-- The "find shortest column" scan of `calculateMasonryLayout`: running
state is `(targetCol, (minHeight, nextIndex))`, with `minHeight = none`
standing for the loop's initial `Infinity`; strictly smaller heights win,
so the first column attaining the minimum is selected. -/
def findShortestColumn (colHeights : List ℚ) : ℕ :=
  (colHeights.foldl
    (fun (st : ℕ × Option ℚ × ℕ) h =>
      match st.2.1 with
      | none => (st.2.2, (some h, st.2.2 + 1))
      | some m =>
        if h < m then (st.2.2, (some h, st.2.2 + 1))
        else (st.1, (some m, st.2.2 + 1)))
    (0, (none, 0))).1

/-- Placement loop of `calculateMasonryLayout`: each item goes to the
currently shortest column; the running column heights start at `gap`. -/
def masonryStep (colWidth gap : ℚ) (st : List CellPosition × List ℚ)
    (item : LayoutItem) : List CellPosition × List ℚ :=
  let targetCol := findShortestColumn st.2
  let x := gap + (targetCol : ℚ) * (colWidth + gap)
  let y := st.2.getD targetCol 0
  let height := jsFloor (colWidth / item.aspect)
  (st.1 ++ [{ x := x, y := y, width := colWidth, height := height,
              mediaIndex := item.index }],
   st.2.set targetCol (st.2.getD targetCol 0 + height + gap))

/-- Placement loop of `calculateMasonryLayout`. -/
def masonryPlace (items : List LayoutItem) (colWidth gap : ℚ) (cols : ℕ) :
    List CellPosition × List ℚ :=
  items.foldl (masonryStep colWidth gap) ([], List.replicate cols gap)

/-- The masonry column count: `columnCount || Math.max(2,
Math.ceil(Math.sqrt(items.length)))` — an absent or zero `columnCount`
falls back to the derived default. -/
def masonryColumns (itemCount : ℕ) (columnCount : Option ℕ) : ℕ :=
  if columnCount.getD 0 = 0 then max 2 (natCeilSqrt itemCount)
  else columnCount.getD 0

/-- `calculateMasonryLayout` from `layout.ts`: place every item into the
shortest column, then — only if the tallest column overflows the canvas —
rescale every `y` and `height` by `(canvasHeight - gap) / maxHeight`,
leaving `x` and `width` untouched. -/
def calculateMasonryLayout (items : List LayoutItem)
    (canvasWidth canvasHeight gap : ℚ) (columnCount : Option ℕ) :
    List CellPosition :=
  if items.isEmpty then []
  else
    let cols := masonryColumns items.length columnCount
    let colWidth := jsFloor ((canvasWidth - gap * ((cols : ℚ) + 1)) / (cols : ℚ))
    let pc := masonryPlace items colWidth gap cols
    let maxHeight := jsMaxList pc.2
    if canvasHeight < maxHeight then
      let scale := (canvasHeight - gap) / maxHeight
      pc.1.map fun pos =>
        { pos with y := jsFloor (pos.y * scale),
                   height := jsFloor (pos.height * scale) }
    else pc.1

/-- A mutable free rectangle of the squarified-treemap loop. -/
structure Rect where
  x : ℚ
  y : ℚ
  width : ℚ
  height : ℚ
deriving Repr, DecidableEq

/-- The treemap's weight default: `item.area || Math.max(1, item.aspect)`
(an absent or zero area weight falls back to `max 1 aspect`). -/
def itemWeight (item : LayoutItem) : ℚ :=
  if item.area.getD 0 = 0 then max 1 item.aspect else item.area.getD 0

/-- `worstAspectRatio` from `layout.ts` (at the call sites every item's
`area` has been populated by the weighting pass; `getD 0` models the
source's non-null assertion `item.area!`). -/
def worstAspectRatio (row : List LayoutItem) (side : ℚ) : ℚ :=
  let totalArea := (row.map (fun item => item.area.getD 0)).sum
  let rowWidth := totalArea / side
  row.foldl
    (fun worst item =>
      let itemHeight := item.area.getD 0 / rowWidth
      max worst (max (rowWidth / itemHeight) (itemHeight / rowWidth))) 0

/-- The `for` loop of `layoutRow`: keep extending the row while the worst
aspect ratio does not get worse.  (The source also threads a `rowArea`
accumulator, but never reads it after assignment; it is dropped here.) -/
def layoutRowGo (side : ℚ) (row : List LayoutItem) (bestAspect : ℚ) :
    List LayoutItem → List LayoutItem × List LayoutItem
  | [] => (row, [])
  | x :: xs =>
    let testRow := row ++ [x]
    let testAspect := worstAspectRatio testRow side
    if bestAspect < testAspect then (row, x :: xs)
    else layoutRowGo side testRow testAspect xs

/-- `layoutRow` from `layout.ts` (its `rect` parameter is never read in
the source and is omitted). -/
def layoutRow (items : List LayoutItem) (side : ℚ) :
    List LayoutItem × List LayoutItem :=
  match items with
  | [] => ([], [])
  | [x] => ([x], [])
  | x :: xs => layoutRowGo side [x] (worstAspectRatio [x] side) xs

/-- Cell emission for one finalized treemap row (the inner `for` of
`squarify`), walking the row with a running `offset`. -/
def treemapRowCells (row : List LayoutItem) (cur : Rect)
    (rowSize gap : ℚ) (isWide : Bool) (offset : ℚ) : List CellPosition :=
  match row with
  | [] => []
  | item :: rest =>
    let itemSize := item.area.getD 0 / rowSize
    let pos := if isWide then
        { x := jsFloor cur.x, y := jsFloor (cur.y + offset),
          width := jsFloor (rowSize - gap / 2),
          height := jsFloor (itemSize - gap / 2),
          mediaIndex := item.index }
      else
        { x := jsFloor (cur.x + offset), y := jsFloor cur.y,
          width := jsFloor (itemSize - gap / 2),
          height := jsFloor (rowSize - gap / 2),
          mediaIndex := item.index }
    pos :: treemapRowCells rest cur rowSize gap isWide (offset + itemSize)

/-- The `while` loop of `squarify`: lay out one row/column along the short
side of the current free rectangle, then continue on the remaining items
with the consumed thickness removed.  The loop is written with an explicit
`fuel` bound on the number of iterations; since every finalized row is
non-empty, `remaining.length` iterations always suffice (proved below as
`squarifyLoop_fuel_irrelevant`-style lemmas on the properties we need),
which is exactly the source's termination argument. -/
def squarifyLoop (fuel : ℕ) (remaining : List LayoutItem) (cur : Rect)
    (gap : ℚ) : List CellPosition :=
  match fuel with
  | 0 => []
  | fuel + 1 =>
    if remaining.isEmpty then []
    else
      let isWide : Bool := cur.height ≤ cur.width
      let side := if isWide then cur.height else cur.width
      let rr := layoutRow remaining side
      let rowArea := (rr.1.map (fun item => item.area.getD 0)).sum
      let rowSize := rowArea / side
      let cells := treemapRowCells rr.1 cur rowSize gap isWide 0
      let next : Rect := if isWide then
          { cur with x := cur.x + rowSize, width := cur.width - rowSize }
        else { cur with y := cur.y + rowSize, height := cur.height - rowSize }
      cells ++ squarifyLoop fuel rr.2 next gap

/-- `squarify` from `layout.ts`: the zero- and one-item short circuits,
then the row-building loop (with enough fuel for its iterations). -/
def squarify (items : List LayoutItem) (rect : Rect) (gap : ℚ) :
    List CellPosition :=
  match items with
  | [] => []
  | [x] =>
    [{ x := jsFloor rect.x, y := jsFloor rect.y,
       width := jsFloor rect.width, height := jsFloor rect.height,
       mediaIndex := x.index }]
  | _ => squarifyLoop items.length items rect gap

/-- `calculateTreemapLayout` from `layout.ts`: default the area weights,
normalize them to the usable canvas area, sort by area descending (the
JavaScript comparator `(a, b) => b.area! - a.area!`), and squarify.  The
source populates and then overwrites `area` on records cloned by
`items.map(item => ({...item, ...}))`; the clones are modelled by the two
`List.map`s here (the aliasing argument itself is settled by the heap
model further below). -/
def calculateTreemapLayout (items : List LayoutItem)
    (canvasWidth canvasHeight gap : ℚ) : List CellPosition :=
  if items.isEmpty then []
  else
    let totalArea := (canvasWidth - gap * 2) * (canvasHeight - gap * 2)
    let weightedItems := items.map fun item =>
      { item with area := some (itemWeight item) }
    let totalWeight := (weightedItems.map (fun item => item.area.getD 0)).sum
    let normalized := weightedItems.map fun item =>
      { item with area := some ((item.area.getD 0 / totalWeight) * totalArea) }
    let sortedItems := normalized.mergeSort
      (fun a b => b.area.getD 0 ≤ a.area.getD 0)
    squarify sortedItems
      { x := gap, y := gap,
        width := canvasWidth - gap * 2, height := canvasHeight - gap * 2 } gap

/-- One item of the pack algorithm after the provisional-dimension pass
(`{...item, width, height}` in the source). -/
structure PackDim where
  item : LayoutItem
  width : ℚ
  height : ℚ
deriving Repr, DecidableEq

/-- One shelf of the pack algorithm. -/
structure PackShelf where
  y : ℚ
  height : ℚ
  width : ℚ
deriving Repr, DecidableEq

/-- The shelf scan of `calculatePackLayout`: try shelves in creation
order; the first one with enough remaining width and enough height takes
the item (its accumulated width grows by `item.width + gap`). -/
def packPlaceOnShelf (item : PackDim) (canvasWidth gap : ℚ) :
    List PackShelf → Option (List PackShelf × CellPosition)
  | [] => none
  | s :: ss =>
    if s.width + item.width + gap ≤ canvasWidth ∧ item.height ≤ s.height then
      some ({ s with width := s.width + item.width + gap } :: ss,
        { x := s.width + gap, y := s.y, width := item.width,
          height := item.height, mediaIndex := item.item.index })
    else
      match packPlaceOnShelf item canvasWidth gap ss with
      | some (ss', pos) => some (s :: ss', pos)
      | none => none

/-- The placement loop of `calculatePackLayout`: place on an existing
shelf when possible, otherwise open a new shelf below all existing ones. -/
def packStep (canvasWidth gap : ℚ)
    (st : List PackShelf × List CellPosition) (item : PackDim) :
    List PackShelf × List CellPosition :=
  match packPlaceOnShelf item canvasWidth gap st.1 with
  | some (shelves', pos) => (shelves', st.2 ++ [pos])
  | none =>
    let shelfY := match st.1.getLast? with
      | none => gap
      | some last => last.y + last.height + gap
    (st.1 ++ [{ y := shelfY, height := item.height, width := item.width + gap }],
     st.2 ++ [{ x := gap, y := shelfY, width := item.width,
                height := item.height, mediaIndex := item.item.index }])

/-- The placement loop of `calculatePackLayout`. -/
def packShelve (dims : List PackDim) (canvasWidth gap : ℚ) :
    List PackShelf × List CellPosition :=
  dims.foldl (packStep canvasWidth gap) ([], [])

/-- `calculatePackLayout` from `layout.ts`: provisional dimensions from a
target height, stable sort by height descending, shelf packing, then a
uniform scale-and-center pass. -/
def calculatePackLayout (items : List LayoutItem)
    (canvasWidth canvasHeight gap : ℚ) : List CellPosition :=
  if items.isEmpty then []
  else
    let avgArea := canvasWidth * canvasHeight / (items.length : ℚ)
    let targetHeight := ratSqrt avgArea
    let itemDims := items.map fun item =>
      { item := item, width := jsFloor (targetHeight * item.aspect),
        height := jsFloor targetHeight : PackDim }
    let sorted := itemDims.mergeSort (fun a b => b.height ≤ a.height)
    let positions := (packShelve sorted canvasWidth gap).2
    let maxY := jsMaxList (positions.map (fun p => p.y + p.height))
    let maxX := jsMaxList (positions.map (fun p => p.x + p.width))
    let scaleX := (canvasWidth - gap * 2) / maxX
    let scaleY := (canvasHeight - gap * 2) / maxY
    let scale := min scaleX scaleY
    let offsetX := jsFloor ((canvasWidth - maxX * scale) / 2)
    let offsetY := jsFloor ((canvasHeight - maxY * scale) / 2)
    positions.map fun pos =>
      { x := jsFloor (pos.x * scale + offsetX),
        y := jsFloor (pos.y * scale + offsetY),
        width := jsFloor (pos.width * scale),
        height := jsFloor (pos.height * scale),
        mediaIndex := pos.mediaIndex }

/-- `calculateLayout` from `layout.ts`: dispatch on the `type` string;
the `switch`'s `"dynamic"` case and its `default` share one branch. -/
def calculateLayout (items : List LayoutItem) (options : LayoutOptions) :
    List CellPosition :=
  let gap := options.gap.getD 0
  if options.type = "grid" then
    calculateGridLayout items.length options.canvasWidth options.canvasHeight
      options.columns options.rows gap
  else if options.type = "masonry" then
    calculateMasonryLayout items options.canvasWidth options.canvasHeight gap
      options.columns
  else if options.type = "treemap" then
    calculateTreemapLayout items options.canvasWidth options.canvasHeight gap
  else if options.type = "pack" then
    calculatePackLayout items options.canvasWidth options.canvasHeight gap
  else
    calculateDynamicLayout items options.canvasWidth options.canvasHeight gap

/-! ## Specification-side grid formulas (claim C4)

These definitions transcribe the specification's wording for the derived
grid geometry (`columns = ceil(sqrt(count))`, `rows = ceil(count /
columns)`, cell sizes and per-index offsets); the claim compares
`calculateGridLayout` against them. -/

def specGridColumns (count : ℕ) : ℕ := natCeilSqrt count

/-- `ceil(count / columns)` computed in natural arithmetic. -/
def specGridRows (count : ℕ) : ℕ :=
  (count + specGridColumns count - 1) / specGridColumns count

def specGridCellWidth (count : ℕ) (canvasWidth gap : ℚ) : ℚ :=
  jsFloor ((canvasWidth - gap * ((specGridColumns count : ℚ) + 1))
    / (specGridColumns count : ℚ))

def specGridCellHeight (count : ℕ) (canvasHeight gap : ℚ) : ℚ :=
  jsFloor ((canvasHeight - gap * ((specGridRows count : ℚ) + 1))
    / (specGridRows count : ℚ))

/-- The specification's cell for 0-based index `i`: column `i mod
columns`, row `i / columns` (integer division), offsets `gap + col *
(cellWidth + gap)` and `gap + row * (cellHeight + gap)`. -/
def specGridCell (count : ℕ) (canvasWidth canvasHeight gap : ℚ) (i : ℕ) :
    CellPosition :=
  { x := gap + ((i % specGridColumns count : ℕ) : ℚ)
      * (specGridCellWidth count canvasWidth gap + gap)
    y := gap + ((i / specGridColumns count : ℕ) : ℚ)
      * (specGridCellHeight count canvasHeight gap + gap)
    width := specGridCellWidth count canvasWidth gap
    height := specGridCellHeight count canvasHeight gap
    mediaIndex := (i : Int) }

/-! ## Heap model for the mutation claim (C8)

JavaScript records live on a heap and the engine receives its items by
reference, so "the engine never mutates caller-owned items" is a statement
about aliasing.  We model a JavaScript heap explicitly: addresses are
naturals, `next` is the allocation watermark (every live caller-owned
object sits below it, every object the engine allocates is placed at and
above it), and the three phases of the engine that clone, field-write or
in-place-sort records/arrays — the treemap weighting pass, the pack
dimension pass and the row partitioner's sort — are transcribed as
sequences of heap operations.  Every field write in the source targets a
record created by `items.map(item => ({...item, ...}))` and every sort
targets an array created by `[...items]` or `.map(...)`, i.e. only
addresses at or above the entry watermark; the theorems below prove the
heap below the watermark is untouched.  (The remaining algorithms
exclusively read their items: `calculateGridLayout` is not even passed
them, and the masonry/dynamic/squarify passes write only to
freshly-created position records, which the pure embeddings above already
express.) -/

/-- A heap cell: a layout-item record, an array (of addresses), or a pack
dimension record (`{...item, width, height}`). -/
inductive HeapVal where
  | item (it : LayoutItem)
  | arr (l : List ℕ)
  | pack (p : PackDim)
deriving Repr, DecidableEq

/-- A JavaScript heap together with its allocation watermark. -/
structure Store where
  heap : ℕ → HeapVal
  next : ℕ

/-- Read a layout item record at an address. -/
def Store.item (st : Store) (i : ℕ) : LayoutItem :=
  match st.heap i with
  | .item it => it
  | _ => ⟨0, 0, none⟩

/-- Read an array at an address. -/
def Store.arr (st : Store) (i : ℕ) : List ℕ :=
  match st.heap i with
  | .arr l => l
  | _ => []

/-- Read a pack dimension record at an address. -/
def Store.pack (st : Store) (i : ℕ) : PackDim :=
  match st.heap i with
  | .pack p => p
  | _ => ⟨⟨0, 0, none⟩, 0, 0⟩

/-- Allocate a fresh object, returning its address. -/
def Store.alloc (st : Store) (v : HeapVal) : Store × ℕ :=
  ({ heap := fun n => if n = st.next then v else st.heap n,
     next := st.next + 1 }, st.next)

/-- Overwrite the object at an (existing) address. -/
def Store.write (st : Store) (i : ℕ) (v : HeapVal) : Store :=
  { st with heap := fun n => if n = i then v else st.heap n }

/-- One step of the treemap clone pass: allocate a fresh
`{...item, area: item.area || max(1, aspect)}` record and collect its
address. -/
def treemapCloneStep (acc : Store × List ℕ) (i : ℕ) : Store × List ℕ :=
  let it := acc.1.item i
  let p := acc.1.alloc (.item { it with area := some (itemWeight it) })
  (p.1, acc.2 ++ [p.2])

/-- One step of the treemap normalization pass: overwrite the clone's
`area` field in place (`item.area = (item.area / totalWeight) *
totalArea`). -/
def treemapNormStep (totalWeight totalArea : ℚ) (s : Store) (i : ℕ) :
    Store :=
  s.write i (.item { s.item i with
    area := some (((s.item i).area.getD 0 / totalWeight) * totalArea) })

/-- One step of the pack clone pass: allocate a fresh
`{...item, width, height}` record and collect its address. -/
def packCloneStep (targetHeight : ℚ) (acc : Store × List ℕ) (i : ℕ) :
    Store × List ℕ :=
  let it := acc.1.item i
  let p := acc.1.alloc (.pack
    { item := it, width := jsFloor (targetHeight * it.aspect),
      height := jsFloor targetHeight })
  (p.1, acc.2 ++ [p.2])

/-- The heap-operation sequence of `calculateTreemapLayout`'s item
preparation: clone every item with a defaulted `area` (fresh records via
`items.map`), collect the clones in a fresh array, overwrite each clone's
`area` with its normalized value (`item.area = ... ` in the source), and
sort the fresh clone array in place by area descending. -/
def treemapPrepH (st : Store) (a : ℕ) (canvasWidth canvasHeight gap : ℚ) :
    Store × ℕ :=
  let totalArea := (canvasWidth - gap * 2) * (canvasHeight - gap * 2)
  let clone := (st.arr a).foldl treemapCloneStep (st, [])
  let p2 := clone.1.alloc (.arr clone.2)
  let st2 := p2.1
  let w := p2.2
  let totalWeight := ((st2.arr w).map (fun i => (st2.item i).area.getD 0)).sum
  let st3 := (st2.arr w).foldl (treemapNormStep totalWeight totalArea) st2
  let st4 := st3.write w (.arr ((st3.arr w).mergeSort
    (fun i j => (st3.item j).area.getD 0 ≤ (st3.item i).area.getD 0)))
  (st4, w)

/-- The heap-operation sequence of `calculatePackLayout`'s dimension
pass: clone every item into a fresh `{...item, width, height}` record,
collect the clones in a fresh array, and sort that array in place by
height descending. -/
def packPrepH (st : Store) (a : ℕ) (canvasWidth canvasHeight : ℚ) :
    Store × ℕ :=
  let avgArea := canvasWidth * canvasHeight / (((st.arr a).length : ℕ) : ℚ)
  let targetHeight := ratSqrt avgArea
  let clone := (st.arr a).foldl (packCloneStep targetHeight) (st, [])
  let p2 := clone.1.alloc (.arr clone.2)
  let st2 := p2.1
  let w := p2.2
  let st3 := st2.write w (.arr ((st2.arr w).mergeSort
    (fun i j => (st2.pack j).height ≤ (st2.pack i).height)))
  (st3, w)

/-- One iteration of `partitionIntoRowsH`'s chunking loop: push the item
reference onto the current row array; once the row is full, push the row
into the `rows` array and allocate a fresh empty current row. -/
def partitionLoopStep (targetItemsPerRow : ℚ) (rowsId : ℕ)
    (acc : Store × ℕ) (i : ℕ) : Store × ℕ :=
  let s := acc.1
  let cur := acc.2
  let s1 := s.write cur (.arr (s.arr cur ++ [i]))
  if targetItemsPerRow ≤ ((s1.arr cur).length : ℚ) then
    let s2 := s1.write rowsId (.arr (s1.arr rowsId ++ [cur]))
    let p := s2.alloc (.arr [])
    (p.1, p.2)
  else (s1, cur)

/-- The heap-operation sequence of `partitionIntoRows`: copy the caller's
array (`[...items]` — a fresh array sharing the item references), sort the
copy in place by aspect descending, then chunk the references into freshly
allocated row arrays, pushing each finished row into a fresh `rows` array
(with the source's single-item-orphan merge at the end).  No layout-item
record is ever written. -/
def partitionIntoRowsH (st : Store) (a : ℕ)
    (canvasWidth canvasHeight gap : ℚ) : Store × ℕ :=
  let _ := gap
  let n := (st.arr a).length
  let canvasAspect := canvasWidth / canvasHeight
  let avgAspect := (((st.arr a).map (fun i => (st.item i).aspect)).sum) / (n : ℚ)
  let targetRows :=
    max 1 (jsRound (ratSqrt ((n : ℚ) / (canvasAspect / avgAspect))))
  let targetItemsPerRow := jsCeil ((n : ℚ) / targetRows)
  let p1 := st.alloc (.arr (st.arr a))
  let sortedId := p1.2
  let st1 := p1.1.write sortedId (.arr ((p1.1.arr sortedId).mergeSort
    (fun i j => (p1.1.item j).aspect ≤ (p1.1.item i).aspect)))
  let p2 := st1.alloc (.arr [])
  let rowsId := p2.2
  let p3 := p2.1.alloc (.arr [])
  let loop := (st1.arr sortedId).foldl
    (partitionLoopStep targetItemsPerRow rowsId) (p3.1, p3.2)
  let s := loop.1
  let cur := loop.2
  let stF :=
    if (s.arr cur).isEmpty then s
    else if (s.arr cur).length = 1 ∧ ¬ (s.arr rowsId).isEmpty then
      let prev := (s.arr rowsId).getLast?.getD 0
      if ((s.arr prev).length : ℚ) ≤ targetItemsPerRow + 1 then
        s.write prev (.arr (s.arr prev ++ s.arr cur))
      else s.write rowsId (.arr (s.arr rowsId ++ [cur]))
    else s.write rowsId (.arr (s.arr rowsId ++ [cur]))
  (stF, rowsId)

/-- "`st'` leaves every address below `n` exactly as `st` has it." -/
def Store.AgreesBelow (st st' : Store) (n : ℕ) : Prop :=
  ∀ j, j < n → st'.heap j = st.heap j

/-! ## Arithmetic bridging lemmas

These connect the JavaScript-style rational operations of the model with
the natural-number formulas the specification states. -/

theorem natCeilSqrt_pos (n : ℕ) (h : 1 ≤ n) : 0 < natCeilSqrt n := by
  unfold natCeilSqrt
  split
  · rename_i he
    rcases Nat.eq_zero_or_pos (Nat.sqrt n) with h0 | h0
    · rw [h0] at he; omega
    · exact h0
  · omega

theorem floor_natCast_div (i c : ℕ) : ⌊(i : ℚ) / (c : ℚ)⌋ = ((i / c : ℕ) : ℤ) := by
  rw [← Int.natCast_floor_eq_floor (by positivity), Nat.floor_div_nat,
    Nat.floor_natCast]

theorem ceil_natCast_div (m c : ℕ) (hc : 0 < c) :
    ⌈(m : ℚ) / (c : ℚ)⌉ = (((m + c - 1) / c : ℕ) : ℤ) := by
  have hc' : (0 : ℚ) < (c : ℚ) := by exact_mod_cast hc
  have h1 := Nat.div_add_mod (m + c - 1) c
  have h2 : (m + c - 1) % c < c := Nat.mod_lt _ hc
  have hA : (c : ℚ) * (((m + c - 1) / c : ℕ) : ℚ)
      + (((m + c - 1) % c : ℕ) : ℚ) = ((m + c - 1 : ℕ) : ℚ) := by
    exact_mod_cast h1
  have hB : ((m + c - 1 : ℕ) : ℚ) = (m : ℚ) + (c : ℚ) - 1 := by
    rw [Nat.cast_sub (by omega : 1 ≤ m + c)]
    push_cast
    ring
  have h2' : (((m + c - 1) % c : ℕ) : ℚ) < (c : ℚ) := by exact_mod_cast h2
  have h0' : (0 : ℚ) ≤ (((m + c - 1) % c : ℕ) : ℚ) := by positivity
  rw [Int.ceil_eq_iff]
  constructor
  · rw [Int.cast_natCast, lt_div_iff₀ hc']
    nlinarith [hA, hB, h2']
  · rw [Int.cast_natCast, div_le_iff₀ hc']
    have h2s : (((m + c - 1) % c : ℕ) : ℚ) + 1 ≤ (c : ℚ) := by
      exact_mod_cast Nat.succ_le_of_lt h2
    nlinarith [hA, hB, h2s]

theorem jsFmod_natCast (i c : ℕ) : jsFmod (i : ℚ) (c : ℚ) = ((i % c : ℕ) : ℚ) := by
  rcases Nat.eq_zero_or_pos c with hc | hc
  · subst hc
    simp [jsFmod, jsTrunc]
  · unfold jsFmod jsTrunc
    rw [if_pos (by positivity), floor_natCast_div, Int.cast_natCast]
    have h := Nat.div_add_mod i c
    have h' : (c : ℚ) * ((i / c : ℕ) : ℚ) + ((i % c : ℕ) : ℚ) = (i : ℚ) := by
      exact_mod_cast h
    linarith

theorem jsFloor_natCast_div (i c : ℕ) :
    jsFloor ((i : ℚ) / (c : ℚ)) = ((i / c : ℕ) : ℚ) := by
  unfold jsFloor
  rw [floor_natCast_div, Int.cast_natCast]

theorem jsCeil_natCast_div (m c : ℕ) (hc : 0 < c) :
    jsCeil ((m : ℚ) / (c : ℚ)) = (((m + c - 1) / c : ℕ) : ℚ) := by
  unfold jsCeil
  rw [ceil_natCast_div m c hc, Int.cast_natCast]

/-! ## Clamping lemmas (claims C2 and C7) -/

theorem clampCell_x (W H : ℚ) (p : CellPosition) :
    (clampCell W H p).x = max 0 (min p.x (W - p.width)) := rfl

theorem clampCell_y (W H : ℚ) (p : CellPosition) :
    (clampCell W H p).y = max 0 (min p.y (H - p.height)) := rfl

theorem clampCell_width (W H : ℚ) (p : CellPosition) :
    (clampCell W H p).width = min p.width (W - p.x) := rfl

theorem clampCell_height (W H : ℚ) (p : CellPosition) :
    (clampCell W H p).height = min p.height (H - p.y) := rfl

/-- One-axis containment: when the incoming size does not exceed the
canvas, the clamped coordinate is non-negative and coordinate + capped
size stays within the canvas. -/
theorem clamp_bounds_aux (W xv wv : ℚ) (hw : wv ≤ W) :
    0 ≤ max 0 (min xv (W - wv)) ∧
      max 0 (min xv (W - wv)) + min wv (W - xv) ≤ W := by
  refine ⟨le_max_left _ _, ?_⟩
  rcases le_total xv (W - wv) with h | h
  · rcases le_total 0 xv with h0 | h0
    · rw [min_eq_left h, max_eq_right h0]
      have hm := min_le_right wv (W - xv)
      linarith
    · rw [min_eq_left h, max_eq_left h0]
      have hm := min_le_left wv (W - xv)
      linarith
  · rw [min_eq_right h, max_eq_right (by linarith : (0 : ℚ) ≤ W - wv)]
    have hm := min_le_right wv (W - xv)
    linarith

/-- One-axis idempotence of the clamp under the same size condition. -/
theorem clamp_idem_aux (W xv wv : ℚ) (hw : wv ≤ W) :
    max 0 (min (max 0 (min xv (W - wv))) (W - min wv (W - xv)))
        = max 0 (min xv (W - wv)) ∧
      min (min wv (W - xv)) (W - max 0 (min xv (W - wv)))
        = min wv (W - xv) := by
  obtain ⟨h1, h2⟩ := clamp_bounds_aux W xv wv hw
  constructor
  · rw [min_eq_left (by linarith), max_eq_right h1]
  · rw [min_eq_left (by linarith)]

/-- C2 (counterexample): the spec claims every rectangle returned by
`clampPositions` satisfies `x + width ≤ canvasWidth`, with no proviso.
A rectangle wider than the canvas placed at a negative `x` violates it:
on a 50×50 canvas, `(-10, 0, 100, 10)` clamps to `(0, 0, 60, 10)`, and
`0 + 60 ≤ 50` is false (the width cap `min(width, W - x)` reads the
original `x = -10`, not the clamped one). -/
theorem C2_counterexample :
    clampPositions [⟨-10, 0, 100, 10, 0⟩] 50 50 = [⟨0, 0, 60, 10, 0⟩] ∧
      ¬ ((0 : ℚ) + 60 ≤ 50) := by
  constructor
  · simp only [clampPositions, List.map_cons, List.map_nil, clampCell,
      CellPosition.mk.injEq]
    norm_num [min_def, max_def]
  · norm_num

/-- C2 (amended): provided every input rectangle's `width` and `height` do
not exceed the canvas (`width ≤ canvasWidth`, `height ≤ canvasHeight`),
every rectangle returned by `clampPositions` has `x ∈ [0, W - width]`,
`y ∈ [0, H - height]`, `x + width ≤ W` and `y + height ≤ H`. -/
theorem C2_clamp_in_bounds (positions : List CellPosition) (W H : ℚ)
    (hok : ∀ p ∈ positions, p.width ≤ W ∧ p.height ≤ H) :
    ∀ q ∈ clampPositions positions W H,
      0 ≤ q.x ∧ q.x ≤ W - q.width ∧ q.x + q.width ≤ W ∧
      0 ≤ q.y ∧ q.y ≤ H - q.height ∧ q.y + q.height ≤ H := by
  intro q hq
  rw [clampPositions, List.mem_map] at hq
  obtain ⟨p, hp, rfl⟩ := hq
  obtain ⟨hw, hh⟩ := hok p hp
  obtain ⟨h1, h2⟩ := clamp_bounds_aux W p.x p.width hw
  obtain ⟨h3, h4⟩ := clamp_bounds_aux H p.y p.height hh
  rw [clampCell_x, clampCell_y, clampCell_width, clampCell_height]
  exact ⟨h1, by linarith, by linarith, h3, by linarith, by linarith⟩

/-- Closed witness for `C2_clamp_in_bounds` at the spec's own example:
the rectangle `(1900, 1000, 100, 200)` on a 1920×1080 canvas. -/
theorem C2_clamp_in_bounds_witness :
    0 ≤ (clampCell 1920 1080 ⟨1900, 1000, 100, 200, 1⟩).x ∧
    (clampCell 1920 1080 ⟨1900, 1000, 100, 200, 1⟩).x
      ≤ 1920 - (clampCell 1920 1080 ⟨1900, 1000, 100, 200, 1⟩).width ∧
    (clampCell 1920 1080 ⟨1900, 1000, 100, 200, 1⟩).x
      + (clampCell 1920 1080 ⟨1900, 1000, 100, 200, 1⟩).width ≤ 1920 ∧
    0 ≤ (clampCell 1920 1080 ⟨1900, 1000, 100, 200, 1⟩).y ∧
    (clampCell 1920 1080 ⟨1900, 1000, 100, 200, 1⟩).y
      ≤ 1080 - (clampCell 1920 1080 ⟨1900, 1000, 100, 200, 1⟩).height ∧
    (clampCell 1920 1080 ⟨1900, 1000, 100, 200, 1⟩).y
      + (clampCell 1920 1080 ⟨1900, 1000, 100, 200, 1⟩).height ≤ 1080 :=
  C2_clamp_in_bounds [⟨1900, 1000, 100, 200, 1⟩] 1920 1080
    (by
      intro p hp
      rw [List.mem_singleton] at hp
      subst hp
      norm_num)
    (clampCell 1920 1080 ⟨1900, 1000, 100, 200, 1⟩)
    (by simp [clampPositions])

/-- C7 (counterexample): `clampPositions` is not idempotent in general.
For the canvas-overflowing rectangle `(-10, 0, 100, 10)` on a 50×50
canvas, one pass yields width `60` but a second pass shrinks it to `50`,
so applying the clamp twice differs from applying it once. -/
theorem C7_counterexample :
    clampPositions (clampPositions [⟨-10, 0, 100, 10, 0⟩] 50 50) 50 50
      ≠ clampPositions [⟨-10, 0, 100, 10, 0⟩] 50 50 := by
  simp only [clampPositions, List.map_cons, List.map_nil, clampCell,
    CellPosition.mk.injEq]
  norm_num [min_def, max_def]

/-- C7 (amended): `clampPositions` is idempotent on rectangle lists whose
widths and heights do not exceed the canvas dimensions (for wider/taller
rectangles a second pass can shrink the capped size further, see
`C7_counterexample`). -/
theorem C7_clamp_idempotent (positions : List CellPosition) (W H : ℚ)
    (hok : ∀ p ∈ positions, p.width ≤ W ∧ p.height ≤ H) :
    clampPositions (clampPositions positions W H) W H
      = clampPositions positions W H := by
  unfold clampPositions
  rw [List.map_map]
  apply List.map_congr_left
  intro p hp
  obtain ⟨hw, hh⟩ := hok p hp
  show clampCell W H (clampCell W H p) = clampCell W H p
  obtain ⟨hA, hB⟩ := clamp_idem_aux W p.x p.width hw
  obtain ⟨hC, hD⟩ := clamp_idem_aux H p.y p.height hh
  simp only [clampCell, CellPosition.mk.injEq]
  exact ⟨hA, hC, hB, hD, trivial⟩

/-- Closed witness for `C7_clamp_idempotent` on an in-bounds list. -/
theorem C7_clamp_idempotent_witness :
    clampPositions (clampPositions [⟨100, 100, 200, 200, 0⟩] 1920 1080) 1920 1080
      = clampPositions [⟨100, 100, 200, 200, 0⟩] 1920 1080 :=
  C7_clamp_idempotent [⟨100, 100, 200, 200, 0⟩] 1920 1080
    (by intro p hp; rw [List.mem_singleton] at hp; subst hp; norm_num)

/-- C9: `calculateGridLayout` with `count = 0` returns the empty list for
every canvas size, gap and column/row configuration; the degenerate
derived column count on that path is never observable because the
emission loop runs zero times. -/
theorem C9_grid_zero_count (W H gap : ℚ) (columns rows : Option ℕ) :
    calculateGridLayout 0 W H columns rows gap = [] := by
  simp [calculateGridLayout]

/-- C10: an explicit `0` column/row count is treated exactly like an
absent one.  For the grid, `columns = some 0` or `rows = some 0` selects
the derivation branch (discarding any supplied value of the other
parameter); for the masonry layout, `columnCount = some 0` selects the
default `max 2 ⌈√itemCount⌉`, which is positive, so a supplied zero never
reaches the cell-width division. -/
theorem C10_zero_treated_as_unspecified :
    (∀ (count : ℕ) (W H gap : ℚ) (r : Option ℕ),
      calculateGridLayout count W H (some 0) r gap
        = calculateGridLayout count W H none none gap) ∧
    (∀ (count : ℕ) (W H gap : ℚ) (c : Option ℕ),
      calculateGridLayout count W H c (some 0) gap
        = calculateGridLayout count W H none none gap) ∧
    (∀ (items : List LayoutItem) (W H gap : ℚ),
      calculateMasonryLayout items W H gap (some 0)
        = calculateMasonryLayout items W H gap none) ∧
    (∀ n : ℕ, masonryColumns n (some 0) = max 2 (natCeilSqrt n)) ∧
    (∀ n : ℕ, 0 < masonryColumns n (some 0)) := by
  refine ⟨?_, ?_, ?_, ?_, ?_⟩
  · intro count W H gap r
    simp [calculateGridLayout]
  · intro count W H gap c
    simp [calculateGridLayout]
  · intro items W H gap
    simp [calculateMasonryLayout, masonryColumns]
  · intro n
    simp [masonryColumns]
  · intro n
    simp only [masonryColumns, Option.getD_some, if_pos rfl]
    exact lt_of_lt_of_le (by norm_num) (le_max_left _ _)

/-- C3: the dispatcher selects exactly one algorithm by the `type` string
(`grid`, `masonry`, `treemap`, `pack` each route to their algorithm and
anything else — including `"dynamic"` — routes to the dynamic algorithm),
and passes `gap` (defaulted to `0` when absent), `columns` and `rows`
through verbatim. -/
theorem C3_dispatch (items : List LayoutItem) (options : LayoutOptions) :
    (options.type = "grid" →
      calculateLayout items options = calculateGridLayout items.length
        options.canvasWidth options.canvasHeight options.columns
        options.rows (options.gap.getD 0)) ∧
    (options.type = "masonry" →
      calculateLayout items options = calculateMasonryLayout items
        options.canvasWidth options.canvasHeight (options.gap.getD 0)
        options.columns) ∧
    (options.type = "treemap" →
      calculateLayout items options = calculateTreemapLayout items
        options.canvasWidth options.canvasHeight (options.gap.getD 0)) ∧
    (options.type = "pack" →
      calculateLayout items options = calculatePackLayout items
        options.canvasWidth options.canvasHeight (options.gap.getD 0)) ∧
    (options.type ∉ ["grid", "masonry", "treemap", "pack"] →
      calculateLayout items options = calculateDynamicLayout items
        options.canvasWidth options.canvasHeight (options.gap.getD 0)) := by
  refine ⟨?_, ?_, ?_, ?_, ?_⟩ <;> intro h
  · simp [calculateLayout, h]
  · simp [calculateLayout, h]
  · simp [calculateLayout, h]
  · simp [calculateLayout, h]
  · simp only [List.mem_cons, List.not_mem_nil, or_false, not_or] at h
    obtain ⟨h1, h2, h3, h4⟩ := h
    simp [calculateLayout, h1, h2, h3, h4]

/-- Closed witness for `C3_dispatch`: an unrecognized selector string
falls back to the dynamic algorithm. -/
theorem C3_dispatch_witness :
    calculateLayout [⟨0, 2, none⟩]
        { type := "hexagonal", canvasWidth := 100, canvasHeight := 100 }
      = calculateDynamicLayout [⟨0, 2, none⟩] 100 100 0 :=
  (C3_dispatch [⟨0, 2, none⟩]
    { type := "hexagonal", canvasWidth := 100, canvasHeight := 100 }).2.2.2.2
    (by decide)

/-- C4: for `count ≥ 1` with `columns` or `rows` unspecified, the grid
derives `columns = ⌈√count⌉` and `rows = ⌈count / columns⌉`, every cell
shares the specified floor-divided dimensions, and the `i`-th emitted cell
sits at column `i mod columns`, row `⌊i / columns⌋`, with offsets
`gap + col·(cellWidth+gap)` and `gap + row·(cellHeight+gap)`. -/
theorem C4_grid_derivation (mediaCount : ℕ) (W H gap : ℚ)
    (columns rows : Option ℕ) (hcount : 1 ≤ mediaCount)
    (hderive : columns = none ∨ rows = none) :
    calculateGridLayout mediaCount W H columns rows gap
      = (List.range mediaCount).map (specGridCell mediaCount W H gap) := by
  have hc : 0 < natCeilSqrt mediaCount := natCeilSqrt_pos _ hcount
  have hcond : columns.getD 0 = 0 ∨ rows.getD 0 = 0 := by
    rcases hderive with h | h <;> simp [h]
  simp only [calculateGridLayout]
  rw [if_pos hcond]
  apply List.map_congr_left
  intro i hi
  simp only [specGridCell, specGridCellWidth, specGridCellHeight,
    specGridColumns, specGridRows]
  rw [jsFmod_natCast, jsFloor_natCast_div, jsCeil_natCast_div _ _ hc]

/-- Closed witness for `C4_grid_derivation`: the specification's own
example `calculateGridLayout(4, 1000, 1000)` with derived columns/rows. -/
theorem C4_grid_derivation_witness :
    calculateGridLayout 4 1000 1000 none none 10
      = (List.range 4).map (specGridCell 4 1000 1000 10) :=
  C4_grid_derivation 4 1000 1000 10 none none (by norm_num) (Or.inl rfl)

/-- C5: a single-item dynamic layout yields exactly one rectangle.  If the
item is wider than the canvas (`aspect > W/H`) it spans the available
width `W - 2·gap` with height `⌊width / aspect⌋`, `x = gap`, vertically
centered at `y = ⌊(H - height) / 2⌋`; otherwise it spans the available
height `H - 2·gap` with width `⌊height · aspect⌋`, `y = gap`,
horizontally centered.  In both cases the floored dimension is within one
rounding unit of the exact aspect-ratio value (the "rounding tolerance"
clause). -/
theorem C5_dynamic_single (item : LayoutItem) (W H gap : ℚ)
    (haspect : 0 < item.aspect) :
    (calculateDynamicLayout [item] W H gap).length = 1 ∧
    (W / H < item.aspect →
      calculateDynamicLayout [item] W H gap
        = [{ x := gap,
             y := jsFloor ((H - jsFloor ((W - gap * 2) / item.aspect)) / 2),
             width := W - gap * 2,
             height := jsFloor ((W - gap * 2) / item.aspect),
             mediaIndex := item.index }] ∧
      item.aspect * jsFloor ((W - gap * 2) / item.aspect) ≤ W - gap * 2 ∧
      W - gap * 2 < item.aspect * (jsFloor ((W - gap * 2) / item.aspect) + 1)) ∧
    (¬ W / H < item.aspect →
      calculateDynamicLayout [item] W H gap
        = [{ x := jsFloor ((W - jsFloor ((H - gap * 2) * item.aspect)) / 2),
             y := gap,
             width := jsFloor ((H - gap * 2) * item.aspect),
             height := H - gap * 2,
             mediaIndex := item.index }] ∧
      jsFloor ((H - gap * 2) * item.aspect) ≤ (H - gap * 2) * item.aspect ∧
      (H - gap * 2) * item.aspect - 1 < jsFloor ((H - gap * 2) * item.aspect)) := by
  have hfl : ∀ q : ℚ, jsFloor q ≤ q := fun q => Int.floor_le q
  have hfl' : ∀ q : ℚ, q < jsFloor q + 1 := fun q => Int.lt_floor_add_one q
  refine ⟨?_, ?_, ?_⟩
  · simp only [calculateDynamicLayout]
    split <;> simp
  · intro h
    refine ⟨by simp only [calculateDynamicLayout]; rw [if_pos h], ?_, ?_⟩
    · have := hfl ((W - gap * 2) / item.aspect)
      calc item.aspect * jsFloor ((W - gap * 2) / item.aspect)
          ≤ item.aspect * ((W - gap * 2) / item.aspect) := by
            exact mul_le_mul_of_nonneg_left this (le_of_lt haspect)
        _ = W - gap * 2 := mul_div_cancel₀ _ (ne_of_gt haspect)
    · have := hfl' ((W - gap * 2) / item.aspect)
      rw [div_lt_iff₀ haspect] at this
      linarith [this]
  · intro h
    refine ⟨by simp only [calculateDynamicLayout]; rw [if_neg h], ?_, ?_⟩
    · exact hfl _
    · linarith [hfl' ((H - gap * 2) * item.aspect)]

/-- Closed witness for `C5_dynamic_single` at the spec's example
(`aspect = 16/9` on a 1920×1080 canvas with no gap; the canvas aspect
equals the item aspect, so the taller-or-equal branch applies). -/
theorem C5_dynamic_single_witness :
    (calculateDynamicLayout [⟨0, 16 / 9, none⟩] 1920 1080 0).length = 1 ∧
    calculateDynamicLayout [⟨0, 16 / 9, none⟩] 1920 1080 0
        = [{ x := jsFloor ((1920 - jsFloor ((1080 - 0 * 2) * (16 / 9))) / 2),
             y := 0,
             width := jsFloor ((1080 - 0 * 2) * (16 / 9)),
             height := 1080 - 0 * 2,
             mediaIndex := 0 }] ∧
    jsFloor ((1080 - 0 * 2) * (16 / 9)) ≤ (1080 - 0 * 2) * ((16 : ℚ) / 9) ∧
    (1080 - 0 * 2) * ((16 : ℚ) / 9) - 1 < jsFloor ((1080 - 0 * 2) * (16 / 9)) :=
  have h := C5_dynamic_single ⟨0, 16 / 9, none⟩ 1920 1080 0 (by norm_num)
  ⟨h.1, h.2.2 (by norm_num)⟩

/-- C6: the masonry height correction.  Writing `raw` for the positions
produced by the placement loop and `maxHeight` for the tallest running
column height: the final output has the same length as `raw`; every
rectangle keeps its `x`, `width` and `mediaIndex` exactly; and its `y` and
`height` are multiplied by `(canvasHeight - gap) / maxHeight` and floored
exactly when `maxHeight` exceeds the canvas height, and are returned
untouched otherwise. -/
theorem C6_masonry_vertical_rescale (items : List LayoutItem)
    (W H gap : ℚ) (cc : Option ℕ) (hne : items ≠ []) :
    let cols := masonryColumns items.length cc
    let colWidth := jsFloor ((W - gap * ((cols : ℚ) + 1)) / (cols : ℚ))
    let pc := masonryPlace items colWidth gap cols
    let raw := pc.1
    let maxHeight := jsMaxList pc.2
    let scale := (H - gap) / maxHeight
    let out := calculateMasonryLayout items W H gap cc
    out.length = raw.length ∧
    ∀ i : ℕ,
      (out[i]?).map CellPosition.x = (raw[i]?).map CellPosition.x ∧
      (out[i]?).map CellPosition.width
        = (raw[i]?).map CellPosition.width ∧
      (out[i]?).map CellPosition.mediaIndex
        = (raw[i]?).map CellPosition.mediaIndex ∧
      (out[i]?).map CellPosition.y
        = (raw[i]?).map (fun pos =>
            if H < maxHeight then jsFloor (pos.y * scale) else pos.y) ∧
      (out[i]?).map CellPosition.height
        = (raw[i]?).map (fun pos =>
            if H < maxHeight then jsFloor (pos.height * scale) else pos.height) := by
  intro cols colWidth pc raw maxHeight scale out
  have hout : out = if H < maxHeight then
      raw.map (fun pos => { pos with
        y := jsFloor (pos.y * scale), height := jsFloor (pos.height * scale) })
    else raw := by
    show calculateMasonryLayout items W H gap cc = _
    rw [calculateMasonryLayout, if_neg (by simpa [List.isEmpty_iff] using hne)]
  by_cases hscale : H < maxHeight
  · rw [hout, if_pos hscale]
    refine ⟨by simp, fun i => ?_⟩
    rcases h : raw[i]? with _ | pos
    · simp [List.getElem?_map, h]
    · simp [List.getElem?_map, h, if_pos hscale]
  · rw [hout, if_neg hscale]
    refine ⟨rfl, fun i => ?_⟩
    rcases h : raw[i]? with _ | pos
    · simp [h]
    · simp [h, if_neg hscale]

/-- Closed witness for `C6_masonry_vertical_rescale`: one square item in
one column of a 10-wide, 5-tall canvas (the placed height 10 overflows
the canvas, so the rescale branch is exercised), read at position 0. -/
theorem C6_masonry_vertical_rescale_witness :
    (calculateMasonryLayout [⟨0, 1, none⟩] 10 5 0 (some 1)).length
      = (masonryPlace [⟨0, 1, none⟩]
          (jsFloor ((10 - 0 * ((masonryColumns 1 (some 1) : ℚ) + 1))
            / (masonryColumns 1 (some 1) : ℚ))) 0
          (masonryColumns 1 (some 1))).1.length ∧
    ((calculateMasonryLayout [⟨0, 1, none⟩] 10 5 0 (some 1))[0]?).map
        CellPosition.x
      = (((masonryPlace [⟨0, 1, none⟩]
          (jsFloor ((10 - 0 * ((masonryColumns 1 (some 1) : ℚ) + 1))
            / (masonryColumns 1 (some 1) : ℚ))) 0
          (masonryColumns 1 (some 1))).1[0]?).map CellPosition.x) ∧
    ((calculateMasonryLayout [⟨0, 1, none⟩] 10 5 0 (some 1))[0]?).map
        CellPosition.width
      = (((masonryPlace [⟨0, 1, none⟩]
          (jsFloor ((10 - 0 * ((masonryColumns 1 (some 1) : ℚ) + 1))
            / (masonryColumns 1 (some 1) : ℚ))) 0
          (masonryColumns 1 (some 1))).1[0]?).map CellPosition.width) ∧
    ((calculateMasonryLayout [⟨0, 1, none⟩] 10 5 0 (some 1))[0]?).map
        CellPosition.mediaIndex
      = (((masonryPlace [⟨0, 1, none⟩]
          (jsFloor ((10 - 0 * ((masonryColumns 1 (some 1) : ℚ) + 1))
            / (masonryColumns 1 (some 1) : ℚ))) 0
          (masonryColumns 1 (some 1))).1[0]?).map CellPosition.mediaIndex) ∧
    ((calculateMasonryLayout [⟨0, 1, none⟩] 10 5 0 (some 1))[0]?).map
        CellPosition.y
      = (((masonryPlace [⟨0, 1, none⟩]
          (jsFloor ((10 - 0 * ((masonryColumns 1 (some 1) : ℚ) + 1))
            / (masonryColumns 1 (some 1) : ℚ))) 0
          (masonryColumns 1 (some 1))).1[0]?).map (fun pos =>
            if (5 : ℚ) < jsMaxList (masonryPlace [⟨0, 1, none⟩]
                (jsFloor ((10 - 0 * ((masonryColumns 1 (some 1) : ℚ) + 1))
                  / (masonryColumns 1 (some 1) : ℚ))) 0
                (masonryColumns 1 (some 1))).2 then
              jsFloor (pos.y * (((5 : ℚ) - 0) / jsMaxList
                (masonryPlace [⟨0, 1, none⟩]
                  (jsFloor ((10 - 0 * ((masonryColumns 1 (some 1) : ℚ) + 1))
                    / (masonryColumns 1 (some 1) : ℚ))) 0
                  (masonryColumns 1 (some 1))).2))
            else pos.y)) ∧
    ((calculateMasonryLayout [⟨0, 1, none⟩] 10 5 0 (some 1))[0]?).map
        CellPosition.height
      = (((masonryPlace [⟨0, 1, none⟩]
          (jsFloor ((10 - 0 * ((masonryColumns 1 (some 1) : ℚ) + 1))
            / (masonryColumns 1 (some 1) : ℚ))) 0
          (masonryColumns 1 (some 1))).1[0]?).map (fun pos =>
            if (5 : ℚ) < jsMaxList (masonryPlace [⟨0, 1, none⟩]
                (jsFloor ((10 - 0 * ((masonryColumns 1 (some 1) : ℚ) + 1))
                  / (masonryColumns 1 (some 1) : ℚ))) 0
                (masonryColumns 1 (some 1))).2 then
              jsFloor (pos.height * (((5 : ℚ) - 0) / jsMaxList
                (masonryPlace [⟨0, 1, none⟩]
                  (jsFloor ((10 - 0 * ((masonryColumns 1 (some 1) : ℚ) + 1))
                    / (masonryColumns 1 (some 1) : ℚ))) 0
                  (masonryColumns 1 (some 1))).2))
            else pos.height)) :=
  have h := C6_masonry_vertical_rescale [⟨0, 1, none⟩] 10 5 0 (some 1)
    (List.cons_ne_nil _ _)
  ⟨h.1, (h.2 0).1, (h.2 0).2.1, (h.2 0).2.2.1, (h.2 0).2.2.2.1,
    (h.2 0).2.2.2.2⟩

/-! ## Index bookkeeping for every algorithm (claim C1) -/

theorem grid_length (n : ℕ) (W H gap : ℚ) (c r : Option ℕ) :
    (calculateGridLayout n W H c r gap).length = n := by
  simp [calculateGridLayout]

theorem grid_mediaIndex (n : ℕ) (W H gap : ℚ) (c r : Option ℕ) :
    (calculateGridLayout n W H c r gap).map CellPosition.mediaIndex
      = (List.range n).map Int.ofNat := by
  unfold calculateGridLayout
  rw [List.map_map]
  rfl

/-- Mapping `mediaIndex` through a per-rectangle rewrite that keeps the
`mediaIndex` field is the same as mapping it over the original list. -/
theorem map_mediaIndex_of_preserve (l : List CellPosition)
    (f : CellPosition → CellPosition)
    (hf : ∀ p, (f p).mediaIndex = p.mediaIndex) :
    (l.map f).map CellPosition.mediaIndex = l.map CellPosition.mediaIndex := by
  rw [List.map_map]
  exact List.map_congr_left (fun p _ => hf p)

/-- A fold whose step appends exactly one position (with the item's index)
to the first component emits one position per input, in input order. -/
theorem foldl_emits_one_fst {α σ : Type}
    (step : (List CellPosition × σ) → α → (List CellPosition × σ))
    (idx : α → Int)
    (hstep : ∀ (ps : List CellPosition) (s : σ) (a : α),
      ∃ pos s', step (ps, s) a = (ps ++ [pos], s') ∧ pos.mediaIndex = idx a) :
    ∀ (l : List α) (ps : List CellPosition) (s : σ),
      ((l.foldl step (ps, s)).1.map CellPosition.mediaIndex
          = ps.map CellPosition.mediaIndex ++ l.map idx) ∧
      (l.foldl step (ps, s)).1.length = ps.length + l.length := by
  intro l
  induction l with
  | nil => intro ps s; simp
  | cons x xs ih =>
    intro ps s
    obtain ⟨pos, s', heq, hidx⟩ := hstep ps s x
    simp only [List.foldl_cons, heq, List.map_cons]
    obtain ⟨h1, h2⟩ := ih (ps ++ [pos]) s'
    rw [h1, h2]
    constructor
    · simp [hidx]
    · simp
      omega

/-- Variant of `foldl_emits_one_fst` for folds that keep the positions in
the second component (the pack shelving loop). -/
theorem foldl_emits_one_snd {α σ : Type}
    (step : (σ × List CellPosition) → α → (σ × List CellPosition))
    (idx : α → Int)
    (hstep : ∀ (s : σ) (ps : List CellPosition) (a : α),
      ∃ pos s', step (s, ps) a = (s', ps ++ [pos]) ∧ pos.mediaIndex = idx a) :
    ∀ (l : List α) (s : σ) (ps : List CellPosition),
      ((l.foldl step (s, ps)).2.map CellPosition.mediaIndex
          = ps.map CellPosition.mediaIndex ++ l.map idx) ∧
      (l.foldl step (s, ps)).2.length = ps.length + l.length := by
  intro l
  induction l with
  | nil => intro s ps; simp
  | cons x xs ih =>
    intro s ps
    obtain ⟨pos, s', heq, hidx⟩ := hstep s ps x
    simp only [List.foldl_cons, heq, List.map_cons]
    obtain ⟨h1, h2⟩ := ih s' (ps ++ [pos])
    rw [h1, h2]
    constructor
    · simp [hidx]
    · simp
      omega

theorem masonryPlace_mediaIndex (items : List LayoutItem)
    (colWidth gap : ℚ) (cols : ℕ) :
    (masonryPlace items colWidth gap cols).1.map CellPosition.mediaIndex
        = items.map LayoutItem.index ∧
      (masonryPlace items colWidth gap cols).1.length = items.length := by
  have h := foldl_emits_one_fst (masonryStep colWidth gap) LayoutItem.index
    (fun ps s a => ⟨_, _, rfl, rfl⟩) items [] (List.replicate cols gap)
  simpa [masonryPlace] using h

theorem masonry_mediaIndex (items : List LayoutItem) (W H gap : ℚ)
    (cc : Option ℕ) :
    (calculateMasonryLayout items W H gap cc).map CellPosition.mediaIndex
        = items.map LayoutItem.index ∧
      (calculateMasonryLayout items W H gap cc).length = items.length := by
  by_cases hemp : items.isEmpty
  · have : items = [] := List.isEmpty_iff.mp hemp
    subst this
    simp [calculateMasonryLayout]
  · simp only [calculateMasonryLayout]
    rw [if_neg hemp]
    obtain ⟨h1, h2⟩ := masonryPlace_mediaIndex items
      (jsFloor ((W - gap * ((masonryColumns items.length cc : ℚ) + 1))
        / (masonryColumns items.length cc : ℚ))) gap
      (masonryColumns items.length cc)
    split
    · constructor
      · apply Eq.trans _ h1
        apply map_mediaIndex_of_preserve
        intro p
        rfl
      · rw [List.length_map]
        exact h2
    · exact ⟨h1, h2⟩

theorem packPlaceOnShelf_mediaIndex (item : PackDim) (W gap : ℚ) :
    ∀ (shelves : List PackShelf) (res : List PackShelf × CellPosition),
      packPlaceOnShelf item W gap shelves = some res →
      res.2.mediaIndex = item.item.index := by
  intro shelves
  induction shelves with
  | nil =>
    intro res h
    simp [packPlaceOnShelf] at h
  | cons s ss ih =>
    intro res h
    rw [packPlaceOnShelf] at h
    split at h
    · cases h
      rfl
    · rcases hrec : packPlaceOnShelf item W gap ss with _ | ⟨ss', pos⟩ <;>
        rw [hrec] at h
      · cases h
      · cases h
        exact ih (ss', pos) hrec

theorem packShelve_fold_mediaIndex (W gap : ℚ) :
    ∀ (dims : List PackDim) (sh : List PackShelf) (ps : List CellPosition),
      ((dims.foldl (packStep W gap) (sh, ps)).2.map CellPosition.mediaIndex
          = ps.map CellPosition.mediaIndex ++ dims.map (fun d => d.item.index)) ∧
      (dims.foldl (packStep W gap) (sh, ps)).2.length = ps.length + dims.length := by
  intro dims
  induction dims with
  | nil =>
    intro sh ps
    simp
  | cons a l ih =>
    intro sh ps
    simp only [List.foldl_cons, List.map_cons]
    rcases hres : packPlaceOnShelf a W gap sh with _ | ⟨ss', pos⟩
    · have hstep : packStep W gap (sh, ps) a
          = (sh ++ [{ y := match sh.getLast? with
                        | none => gap
                        | some last => last.y + last.height + gap,
                      height := a.height, width := a.width + gap }],
             ps ++ [{ x := gap,
                      y := match sh.getLast? with
                        | none => gap
                        | some last => last.y + last.height + gap,
                      width := a.width, height := a.height,
                      mediaIndex := a.item.index }]) := by
        simp [packStep, hres]
      rw [hstep]
      obtain ⟨h1, h2⟩ := ih _ _
      rw [h1, h2]
      constructor
      · simp
      · simp
        omega
    · have hstep : packStep W gap (sh, ps) a = (ss', ps ++ [pos]) := by
        simp [packStep, hres]
      rw [hstep]
      obtain ⟨h1, h2⟩ := ih ss' (ps ++ [pos])
      rw [h1, h2]
      have hm := packPlaceOnShelf_mediaIndex a W gap sh (ss', pos) hres
      constructor
      · simp
        exact hm
      · simp
        omega

theorem packShelve_mediaIndex (dims : List PackDim) (W gap : ℚ) :
    (packShelve dims W gap).2.map CellPosition.mediaIndex
        = dims.map (fun d => d.item.index) ∧
      (packShelve dims W gap).2.length = dims.length := by
  simpa [packShelve] using packShelve_fold_mediaIndex W gap dims [] []

theorem pack_mediaIndex (items : List LayoutItem) (W H gap : ℚ) :
    ((calculatePackLayout items W H gap).map CellPosition.mediaIndex).Perm
        (items.map LayoutItem.index) ∧
      (calculatePackLayout items W H gap).length = items.length := by
  by_cases hemp : items.isEmpty
  · have : items = [] := List.isEmpty_iff.mp hemp
    subst this
    simp [calculatePackLayout]
  · simp only [calculatePackLayout]
    rw [if_neg hemp]
    obtain ⟨h1, h2⟩ := packShelve_mediaIndex
      ((items.map fun item =>
        ({ item := item,
           width := jsFloor (ratSqrt (W * H / (items.length : ℚ)) * item.aspect),
           height := jsFloor (ratSqrt (W * H / (items.length : ℚ))) } :
          PackDim)).mergeSort (fun a b => b.height ≤ a.height)) W gap
    set dims := items.map (fun item =>
      ({ item := item,
         width := jsFloor (ratSqrt (W * H / (items.length : ℚ)) * item.aspect),
         height := jsFloor (ratSqrt (W * H / (items.length : ℚ))) } :
        PackDim)) with hdims
    set sorted := dims.mergeSort (fun a b => b.height ≤ a.height) with hsorted
    set positions := (packShelve sorted W gap).2 with hpositions
    constructor
    · rw [List.map_map]
      show (positions.map CellPosition.mediaIndex).Perm
        (items.map LayoutItem.index)
      rw [h1, hsorted]
      refine ((List.mergeSort_perm dims _).map (fun d => d.item.index)).trans ?_
      rw [hdims, List.map_map]
      exact List.Perm.refl _
    · rw [List.length_map, h2, hsorted, List.length_mergeSort, hdims,
        List.length_map]

theorem dynamicRowCells_mediaIndex (row : List LayoutItem)
    (W gap rh : ℚ) :
    ∀ cx cy,
      ((dynamicRowCells row W gap rh cx cy).map CellPosition.mediaIndex
          = row.map LayoutItem.index) ∧
      (dynamicRowCells row W gap rh cx cy).length = row.length := by
  induction row with
  | nil =>
    intro cx cy
    simp [dynamicRowCells]
  | cons x xs ih =>
    intro cx cy
    rcases xs with _ | ⟨y, ys⟩
    · simp [dynamicRowCells]
    · simp only [dynamicRowCells, List.map_cons, List.length_cons]
      obtain ⟨h1, h2⟩ := ih (cx + jsFloor (rh * x.aspect) + gap) cy
      rw [h1, h2]
      simp

theorem dynamicRowsGo_mediaIndex (rows : List (List LayoutItem))
    (W gap sf : ℚ) :
    ∀ y,
      ((dynamicRowsGo rows W gap sf y).map CellPosition.mediaIndex
          = rows.flatten.map LayoutItem.index) ∧
      (dynamicRowsGo rows W gap sf y).length = rows.flatten.length := by
  induction rows with
  | nil =>
    intro y
    simp [dynamicRowsGo]
  | cons row rest ih =>
    intro y
    simp only [dynamicRowsGo]
    by_cases hrow : row.isEmpty
    · rw [if_pos hrow]
      have hrow' : row = [] := List.isEmpty_iff.mp hrow
      subst hrow'
      simpa using ih y
    · rw [if_neg hrow]
      obtain ⟨h1, h2⟩ := dynamicRowCells_mediaIndex row W gap
        (jsFloor ((W - gap * 2 - gap * ((row.length : ℚ) - 1))
          / (row.map (·.aspect)).sum * sf)) gap y
      obtain ⟨h3, h4⟩ := ih (y + jsFloor ((W - gap * 2 - gap * ((row.length : ℚ) - 1))
          / (row.map (·.aspect)).sum * sf) + gap)
      simp only [List.map_append, List.length_append, List.flatten_cons]
      rw [h1, h2, h3, h4]
      simp

theorem partitionStep_foldl_flatten (t : ℚ) (l : List LayoutItem) :
    ∀ st : List (List LayoutItem) × List LayoutItem,
      ((l.foldl (partitionStep t) st).1.flatten
          ++ (l.foldl (partitionStep t) st).2)
        = st.1.flatten ++ st.2 ++ l := by
  induction l with
  | nil =>
    intro st
    simp
  | cons x xs ih =>
    intro st
    simp only [List.foldl_cons]
    rw [ih]
    simp only [partitionStep]
    split
    · simp
    · simp

theorem partitionIntoRows_flatten (items : List LayoutItem)
    (W H gap : ℚ) :
    (partitionIntoRows items W H gap).flatten
      = items.mergeSort (fun a b => b.aspect ≤ a.aspect) := by
  simp only [partitionIntoRows]
  have hfold := partitionStep_foldl_flatten
    (jsCeil ((items.length : ℚ) / max 1 (jsRound (ratSqrt ((items.length : ℚ)
      / (W / H / (((items.map (·.aspect)).sum) / (items.length : ℚ))))))))
    (items.mergeSort (fun a b => b.aspect ≤ a.aspect)) ([], [])
  simp only [List.flatten_nil, List.nil_append] at hfold
  set t := jsCeil ((items.length : ℚ) / max 1 (jsRound (ratSqrt ((items.length : ℚ)
      / (W / H / (((items.map (·.aspect)).sum) / (items.length : ℚ)))))))
  set st := (items.mergeSort (fun a b => b.aspect ≤ a.aspect)).foldl
    (partitionStep t) ([], [])
  by_cases h1 : st.2.isEmpty
  · rw [if_pos h1]
    have h1' : st.2 = [] := List.isEmpty_iff.mp h1
    rw [h1', List.append_nil] at hfold
    exact hfold
  · rw [if_neg h1]
    by_cases h2 : st.2.length = 1 ∧ ¬ st.1.isEmpty
    · rw [if_pos h2]
      have hne : st.1 ≠ [] := by
        intro hc
        exact h2.2 (by simp [hc])
      rcases (List.eq_nil_or_concat st.1) with hc | ⟨l', la, hconcat⟩
      · exact absurd hc hne
      · rw [hconcat]
        rw [hconcat] at hfold
        split
        · simp only [List.concat_eq_append, List.getLast?_concat,
            Option.getD_some, List.dropLast_concat]
          rw [← hfold]
          simp [List.flatten_append]
        · simp only [List.concat_eq_append]
          rw [← hfold]
          simp [List.flatten_append]
    · rw [if_neg h2]
      rw [← hfold]
      simp [List.flatten_append]

theorem dynamic_mediaIndex (items : List LayoutItem) (W H gap : ℚ)
    (hne : items ≠ []) :
    ((calculateDynamicLayout items W H gap).map CellPosition.mediaIndex).Perm
        (items.map LayoutItem.index) ∧
      (calculateDynamicLayout items W H gap).length = items.length := by
  rcases items with _ | ⟨x, _ | ⟨y, rest⟩⟩
  · exact absurd rfl hne
  · constructor
    · simp only [calculateDynamicLayout]
      split <;> simp
    · simp only [calculateDynamicLayout]
      split <;> simp
  · simp only [calculateDynamicLayout]
    obtain ⟨h1, h2⟩ := dynamicRowsGo_mediaIndex
      (partitionIntoRows (x :: y :: rest) W H gap) W gap
      ((H - gap * (((partitionIntoRows (x :: y :: rest) W H gap).length : ℚ) + 1))
        / ((partitionIntoRows (x :: y :: rest) W H gap).map (fun row =>
            (W - gap * 2 - gap * ((row.length : ℚ) - 1))
              / (row.map (·.aspect)).sum)).sum) gap
    rw [h1, h2, partitionIntoRows_flatten]
    constructor
    · exact (List.mergeSort_perm (x :: y :: rest) _).map LayoutItem.index
    · rw [List.length_mergeSort]

theorem layoutRowGo_append (side : ℚ) :
    ∀ (l row : List LayoutItem) (b : ℚ),
      (layoutRowGo side row b l).1 ++ (layoutRowGo side row b l).2
        = row ++ l := by
  intro l
  induction l with
  | nil =>
    intro row b
    simp [layoutRowGo]
  | cons x xs ih =>
    intro row b
    simp only [layoutRowGo]
    split
    · simp
    · rw [ih]
      simp

theorem layoutRowGo_rest_length_le (side : ℚ) :
    ∀ (l row : List LayoutItem) (b : ℚ),
      (layoutRowGo side row b l).2.length ≤ l.length := by
  intro l
  induction l with
  | nil =>
    intro row b
    simp [layoutRowGo]
  | cons x xs ih =>
    intro row b
    simp only [layoutRowGo]
    split
    · simp
    · exact le_trans (ih _ _) (Nat.le_succ _)

theorem layoutRow_append (items : List LayoutItem) (side : ℚ) :
    (layoutRow items side).1 ++ (layoutRow items side).2 = items := by
  rcases items with _ | ⟨x, _ | ⟨y, ys⟩⟩
  · simp [layoutRow]
  · simp [layoutRow]
  · simp only [layoutRow]
    rw [layoutRowGo_append]
    simp

theorem layoutRow_rest_length_lt (items : List LayoutItem) (side : ℚ)
    (h : items ≠ []) :
    (layoutRow items side).2.length < items.length := by
  rcases items with _ | ⟨x, _ | ⟨y, ys⟩⟩
  · exact absurd rfl h
  · simp [layoutRow]
  · simp only [layoutRow]
    exact lt_of_le_of_lt (layoutRowGo_rest_length_le _ _ _ _)
      (by simp [Nat.lt_succ_self])

theorem treemapRowCells_mediaIndex (row : List LayoutItem) (cur : Rect)
    (rowSize gap : ℚ) (isWide : Bool) :
    ∀ offset,
      ((treemapRowCells row cur rowSize gap isWide offset).map
          CellPosition.mediaIndex = row.map LayoutItem.index) ∧
      (treemapRowCells row cur rowSize gap isWide offset).length
        = row.length := by
  induction row with
  | nil =>
    intro offset
    simp [treemapRowCells]
  | cons x xs ih =>
    intro offset
    simp only [treemapRowCells, List.map_cons, List.length_cons]
    obtain ⟨h1, h2⟩ := ih (offset + x.area.getD 0 / rowSize)
    rw [h1, h2]
    constructor
    · split <;> rfl
    · rfl

/-- Combining one emitted row with the recursive remainder. -/
theorem media_append_helper (cells tailPos : List CellPosition)
    (row rest all : List LayoutItem)
    (hc1 : cells.map CellPosition.mediaIndex = row.map LayoutItem.index)
    (hc2 : cells.length = row.length)
    (ht1 : tailPos.map CellPosition.mediaIndex = rest.map LayoutItem.index)
    (ht2 : tailPos.length = rest.length)
    (happ : row ++ rest = all) :
    ((cells ++ tailPos).map CellPosition.mediaIndex
        = all.map LayoutItem.index) ∧
      (cells ++ tailPos).length = all.length := by
  subst happ
  constructor
  · simp [hc1, ht1]
  · simp [hc2, ht2]

theorem squarifyLoop_mediaIndex (fuel : ℕ) :
    ∀ (remaining : List LayoutItem) (cur : Rect) (gap : ℚ),
      remaining.length ≤ fuel →
      ((squarifyLoop fuel remaining cur gap).map CellPosition.mediaIndex
          = remaining.map LayoutItem.index) ∧
      (squarifyLoop fuel remaining cur gap).length = remaining.length := by
  induction fuel with
  | zero =>
    intro remaining cur gap h
    have : remaining = [] := List.eq_nil_of_length_eq_zero (Nat.le_zero.mp h)
    subst this
    simp [squarifyLoop]
  | succ fuel ih =>
    intro remaining cur gap h
    rw [squarifyLoop]
    by_cases hemp : remaining.isEmpty
    · rw [if_pos hemp]
      have : remaining = [] := List.isEmpty_iff.mp hemp
      subst this
      simp
    · rw [if_neg hemp]
      have hne : remaining ≠ [] := by
        intro hc
        rw [hc] at hemp
        simp at hemp
      refine media_append_helper _ _ _ _ _
        (treemapRowCells_mediaIndex _ _ _ _ _ _).1
        (treemapRowCells_mediaIndex _ _ _ _ _ _).2
        (ih _ _ _ ?_).1 (ih _ _ _ ?_).2
        (layoutRow_append _ _) <;>
      exact Nat.lt_succ_iff.mp
        (lt_of_lt_of_le (layoutRow_rest_length_lt remaining _ hne) h)

theorem squarify_mediaIndex (items : List LayoutItem) (rect : Rect)
    (gap : ℚ) :
    ((squarify items rect gap).map CellPosition.mediaIndex
        = items.map LayoutItem.index) ∧
      (squarify items rect gap).length = items.length := by
  rcases items with _ | ⟨x, _ | ⟨y, ys⟩⟩
  · simp [squarify]
  · simp [squarify]
  · exact squarifyLoop_mediaIndex (y :: ys).length.succ (x :: y :: ys)
      rect gap (le_refl _)

theorem treemap_mediaIndex (items : List LayoutItem) (W H gap : ℚ) :
    ((calculateTreemapLayout items W H gap).map CellPosition.mediaIndex).Perm
        (items.map LayoutItem.index) ∧
      (calculateTreemapLayout items W H gap).length = items.length := by
  by_cases hemp : items.isEmpty
  · have : items = [] := List.isEmpty_iff.mp hemp
    subst this
    simp [calculateTreemapLayout]
  · simp only [calculateTreemapLayout]
    rw [if_neg hemp]
    obtain ⟨h1, h2⟩ := squarify_mediaIndex
      (((items.map fun item => { item with area := some (itemWeight item) }).map
          fun item => { item with area := some ((item.area.getD 0
            / ((items.map fun item =>
                { item with area := some (itemWeight item) }).map
                (fun item => item.area.getD 0)).sum)
            * ((W - gap * 2) * (H - gap * 2))) }).mergeSort
        (fun a b => b.area.getD 0 ≤ a.area.getD 0))
      { x := gap, y := gap, width := W - gap * 2, height := H - gap * 2 } gap
    rw [h1, h2, List.length_mergeSort]
    constructor
    · refine ((List.mergeSort_perm _ _).map LayoutItem.index).trans ?_
      rw [List.map_map, List.map_map]
      exact List.Perm.refl _
    · rw [List.length_map, List.length_map]

/-- C1 (counterexample): the claim requires the output `mediaIndex` set to
equal the input `index` set for *every* algorithm, "including when the
input indices are not the contiguous range 0..N-1".  The grid algorithm
only receives the item *count* and numbers its cells `0..N-1`
positionally, so a single item with `index = 5` comes back tagged
`mediaIndex = 0`, which is not in the input index set. -/
theorem C1_counterexample :
    (calculateLayout [⟨5, 1, none⟩]
        { type := "grid", canvasWidth := 100, canvasHeight := 100 }).map
        CellPosition.mediaIndex = [0] ∧
      ¬ ((0 : Int) ∈ ([⟨5, 1, none⟩] : List LayoutItem).map LayoutItem.index) := by
  constructor
  · simp only [calculateLayout, if_true]
    rw [grid_mediaIndex]
    rfl
  · simp

/-- C1 (amended): for every non-empty item list, every algorithm emits
exactly one cell per item (`output length = input length`).  The
non-grid algorithms (`dynamic`, `masonry`, `treemap`, `pack`, and the
default branch) return a list whose `mediaIndex` multiset is a
permutation of the input `index` multiset — hence set equality and no
duplicated placement.  The grid algorithm instead always returns
`mediaIndex = 0..N-1` positionally, so its index set matches the input
set only when the input indices are themselves `0..N-1`. -/
theorem C1_index_preservation (items : List LayoutItem)
    (options : LayoutOptions) (hne : items ≠ []) :
    (calculateLayout items options).length = items.length ∧
    (options.type = "grid" →
      (calculateLayout items options).map CellPosition.mediaIndex
        = (List.range items.length).map Int.ofNat) ∧
    (options.type ≠ "grid" →
      ((calculateLayout items options).map CellPosition.mediaIndex).Perm
        (items.map LayoutItem.index)) := by
  by_cases hg : options.type = "grid"
  · refine ⟨?_, fun _ => ?_, fun hns => absurd hg hns⟩
    · simp only [calculateLayout]
      rw [if_pos hg]
      exact grid_length _ _ _ _ _ _
    · simp only [calculateLayout]
      rw [if_pos hg]
      exact grid_mediaIndex _ _ _ _ _ _
  · by_cases hm : options.type = "masonry"
    · obtain ⟨h1, h2⟩ := masonry_mediaIndex items options.canvasWidth
        options.canvasHeight (options.gap.getD 0) options.columns
      refine ⟨?_, fun hgg => absurd hgg hg, fun _ => ?_⟩
      · simp only [calculateLayout]
        rw [if_neg hg, if_pos hm]
        exact h2
      · simp only [calculateLayout]
        rw [if_neg hg, if_pos hm, h1]
    · by_cases ht : options.type = "treemap"
      · obtain ⟨h1, h2⟩ := treemap_mediaIndex items options.canvasWidth
          options.canvasHeight (options.gap.getD 0)
        refine ⟨?_, fun hgg => absurd hgg hg, fun _ => ?_⟩
        · simp only [calculateLayout]
          rw [if_neg hg, if_neg hm, if_pos ht]
          exact h2
        · simp only [calculateLayout]
          rw [if_neg hg, if_neg hm, if_pos ht]
          exact h1
      · by_cases hp : options.type = "pack"
        · obtain ⟨h1, h2⟩ := pack_mediaIndex items options.canvasWidth
            options.canvasHeight (options.gap.getD 0)
          refine ⟨?_, fun hgg => absurd hgg hg, fun _ => ?_⟩
          · simp only [calculateLayout]
            rw [if_neg hg, if_neg hm, if_neg ht, if_pos hp]
            exact h2
          · simp only [calculateLayout]
            rw [if_neg hg, if_neg hm, if_neg ht, if_pos hp]
            exact h1
        · obtain ⟨h1, h2⟩ := dynamic_mediaIndex items options.canvasWidth
            options.canvasHeight (options.gap.getD 0) hne
          refine ⟨?_, fun hgg => absurd hgg hg, fun _ => ?_⟩
          · simp only [calculateLayout]
            rw [if_neg hg, if_neg hm, if_neg ht, if_neg hp]
            exact h2
          · simp only [calculateLayout]
            rw [if_neg hg, if_neg hm, if_neg ht, if_neg hp]
            exact h1

/-- Closed witness for `C1_index_preservation`: a one-item list with the
non-contiguous index 7, routed to the pack algorithm. -/
theorem C1_index_preservation_witness :
    (calculateLayout [⟨7, 1, none⟩]
        { type := "pack", canvasWidth := 100, canvasHeight := 100 }).length
        = ([⟨7, 1, none⟩] : List LayoutItem).length ∧
    ((calculateLayout [⟨7, 1, none⟩]
        { type := "pack", canvasWidth := 100, canvasHeight := 100 }).map
        CellPosition.mediaIndex).Perm
      (([⟨7, 1, none⟩] : List LayoutItem).map LayoutItem.index) :=
  have h := C1_index_preservation [⟨7, 1, none⟩]
    { type := "pack", canvasWidth := 100, canvasHeight := 100 }
    (List.cons_ne_nil _ _)
  ⟨h.1, h.2.2 (by decide)⟩

/-! ## Heap preservation (claim C8)

Strategy: prove that each transcribed heap phase only ever writes at
addresses at or above the entry watermark `st.next`, so the entire heap
below the watermark — in particular the caller's array and every
caller-owned item record — is untouched. -/

theorem Store.alloc_heap_below (st : Store) (v : HeapVal) (j : ℕ)
    (h : j < st.next) : (st.alloc v).1.heap j = st.heap j := by
  simp only [Store.alloc]
  rw [if_neg (by omega)]

theorem Store.alloc_next (st : Store) (v : HeapVal) :
    (st.alloc v).1.next = st.next + 1 := rfl

theorem Store.alloc_snd (st : Store) (v : HeapVal) :
    (st.alloc v).2 = st.next := rfl

theorem Store.alloc_heap_self (st : Store) (v : HeapVal) :
    (st.alloc v).1.heap st.next = v := by
  simp [Store.alloc]

theorem Store.write_heap_ne (st : Store) (i : ℕ) (v : HeapVal) (j : ℕ)
    (h : j ≠ i) : (st.write i v).heap j = st.heap j := by
  simp only [Store.write]
  rw [if_neg h]

theorem Store.write_next (st : Store) (i : ℕ) (v : HeapVal) :
    (st.write i v).next = st.next := rfl

theorem Store.arr_congr (st st' : Store) (j : ℕ)
    (h : st'.heap j = st.heap j) : st'.arr j = st.arr j := by
  unfold Store.arr
  rw [h]

theorem Store.item_congr (st st' : Store) (j : ℕ)
    (h : st'.heap j = st.heap j) : st'.item j = st.item j := by
  unfold Store.item
  rw [h]

theorem getLast_getD_mem (l : List ℕ) (h : l ≠ []) :
    l.getLast?.getD 0 ∈ l := by
  rcases List.eq_nil_or_concat l with hc | ⟨l', x, rfl⟩
  · exact absurd hc h
  · rw [List.concat_eq_append, List.getLast?_concat]
    simp

/-- The clone pass of the treemap preparation only allocates: the heap
below the entry watermark is preserved, the watermark does not decrease,
and every collected address is either inherited or fresh. -/
theorem treemapCloneFold_spec (base : ℕ) :
    ∀ (l : List ℕ) (st0 : Store) (ids : List ℕ),
      base ≤ st0.next →
      (∀ j, j < base →
        (l.foldl treemapCloneStep (st0, ids)).1.heap j = st0.heap j) ∧
      base ≤ (l.foldl treemapCloneStep (st0, ids)).1.next ∧
      (∀ k ∈ (l.foldl treemapCloneStep (st0, ids)).2, k ∈ ids ∨ base ≤ k) := by
  intro l
  induction l with
  | nil =>
    intro st0 ids hb
    refine ⟨fun j hj => rfl, hb, fun k hk => Or.inl hk⟩
  | cons i l ih =>
    intro st0 ids hb
    rw [List.foldl_cons]
    obtain ⟨h1, h2, h3⟩ := ih (treemapCloneStep (st0, ids) i).1
      (treemapCloneStep (st0, ids) i).2 (by
        show base ≤ (st0.alloc _).1.next
        rw [Store.alloc_next]
        omega)
    refine ⟨?_, ?_, ?_⟩
    · intro j hj
      rw [h1 j hj]
      exact Store.alloc_heap_below st0 _ j (by omega)
    · exact h2
    · intro k hk
      rcases h3 k hk with hk' | hk'
      · have hk'' : k ∈ ids ++ [(st0.alloc (.item { st0.item i with
            area := some (itemWeight (st0.item i)) })).2] := hk'
        rcases List.mem_append.mp hk'' with hk3 | hk3
        · exact Or.inl hk3
        · rw [List.mem_singleton] at hk3
          rw [hk3, Store.alloc_snd]
          omega
      · exact Or.inr hk'

/-- Same statement for the clone pass of the pack preparation. -/
theorem packCloneFold_spec (th : ℚ) (base : ℕ) :
    ∀ (l : List ℕ) (st0 : Store) (ids : List ℕ),
      base ≤ st0.next →
      (∀ j, j < base →
        (l.foldl (packCloneStep th) (st0, ids)).1.heap j = st0.heap j) ∧
      base ≤ (l.foldl (packCloneStep th) (st0, ids)).1.next := by
  intro l
  induction l with
  | nil =>
    intro st0 ids hb
    exact ⟨fun j hj => rfl, hb⟩
  | cons i l ih =>
    intro st0 ids hb
    rw [List.foldl_cons]
    obtain ⟨h1, h2⟩ := ih (packCloneStep th (st0, ids) i).1
      (packCloneStep th (st0, ids) i).2 (by
        show base ≤ (st0.alloc _).1.next
        rw [Store.alloc_next]
        omega)
    refine ⟨?_, h2⟩
    intro j hj
    rw [h1 j hj]
    exact Store.alloc_heap_below st0 _ j (by omega)

/-- A fold of the treemap normalization writes at addresses at or above
the watermark leaves the heap below the watermark unchanged (and does not
move the watermark). -/
theorem treemapNormFold_spec (base : ℕ) (tw ta : ℚ) :
    ∀ (l : List ℕ) (st0 : Store),
      (∀ i ∈ l, base ≤ i) →
      (∀ j, j < base →
        (l.foldl (treemapNormStep tw ta) st0).heap j = st0.heap j) ∧
      (l.foldl (treemapNormStep tw ta) st0).next = st0.next := by
  intro l
  induction l with
  | nil =>
    intro st0 hl
    exact ⟨fun j hj => rfl, rfl⟩
  | cons i l ih =>
    intro st0 hl
    rw [List.foldl_cons]
    obtain ⟨h1, h2⟩ := ih (treemapNormStep tw ta st0 i)
      (fun k hk => hl k (List.mem_cons_of_mem _ hk))
    constructor
    · intro j hj
      rw [h1 j hj]
      show (st0.write i _).heap j = st0.heap j
      rw [Store.write_heap_ne]
      have := hl i (List.mem_cons_self _ _)
      omega
    · rw [h2]
      rfl

theorem Store.write_arr_self (st : Store) (i : ℕ) (L : List ℕ) :
    (st.write i (.arr L)).arr i = L := by
  simp [Store.write, Store.arr]

/-- One chunking-loop step writes only at or above the watermark and
maintains the loop invariants (current row and all row addresses fresh). -/
theorem partitionLoopStep_spec (t : ℚ) (rowsId base : ℕ)
    (hrb : base ≤ rowsId) (acc : Store × ℕ) (i : ℕ)
    (hb : base ≤ acc.1.next) (hr1 : rowsId < acc.1.next)
    (hr2 : rowsId < acc.2) (hc : base ≤ acc.2)
    (harr : ∀ r ∈ acc.1.arr rowsId, base ≤ r) :
    (∀ j, j < base →
      (partitionLoopStep t rowsId acc i).1.heap j = acc.1.heap j) ∧
    base ≤ (partitionLoopStep t rowsId acc i).1.next ∧
    rowsId < (partitionLoopStep t rowsId acc i).1.next ∧
    rowsId < (partitionLoopStep t rowsId acc i).2 ∧
    base ≤ (partitionLoopStep t rowsId acc i).2 ∧
    (∀ r ∈ (partitionLoopStep t rowsId acc i).1.arr rowsId, base ≤ r) := by
  unfold partitionLoopStep
  dsimp only
  split
  · refine ⟨?_, ?_, ?_, ?_, ?_, ?_⟩
    · intro j hj
      rw [Store.alloc_heap_below _ _ j
        (by rw [Store.write_next, Store.write_next]; omega)]
      rw [Store.write_heap_ne _ _ _ j (by omega)]
      rw [Store.write_heap_ne _ _ _ j (by omega)]
    · rw [Store.alloc_next, Store.write_next, Store.write_next]
      omega
    · rw [Store.alloc_next, Store.write_next, Store.write_next]
      omega
    · rw [Store.alloc_snd, Store.write_next, Store.write_next]
      omega
    · rw [Store.alloc_snd, Store.write_next, Store.write_next]
      omega
    · intro r hr
      rw [Store.arr_congr _ _ rowsId (Store.alloc_heap_below _ _ rowsId
        (by rw [Store.write_next, Store.write_next]; omega))] at hr
      rw [Store.write_arr_self] at hr
      rcases List.mem_append.mp hr with hr' | hr'
      · rw [Store.arr_congr _ _ rowsId
          (Store.write_heap_ne _ _ _ rowsId (by omega))] at hr'
        exact harr r hr'
      · rw [List.mem_singleton] at hr'
        omega
  · refine ⟨?_, ?_, ?_, hr2, hc, ?_⟩
    · intro j hj
      rw [Store.write_heap_ne _ _ _ j (by omega)]
    · rw [Store.write_next]
      omega
    · rw [Store.write_next]
      omega
    · intro r hr
      rw [Store.arr_congr _ _ rowsId
        (Store.write_heap_ne _ _ _ rowsId (by omega))] at hr
      exact harr r hr

/-- The whole chunking loop writes only at or above the watermark. -/
theorem partitionLoopFold_spec (t : ℚ) (rowsId base : ℕ)
    (hrb : base ≤ rowsId) :
    ∀ (l : List ℕ) (acc : Store × ℕ),
      base ≤ acc.1.next → rowsId < acc.1.next → rowsId < acc.2 →
      base ≤ acc.2 → (∀ r ∈ acc.1.arr rowsId, base ≤ r) →
      (∀ j, j < base →
        (l.foldl (partitionLoopStep t rowsId) acc).1.heap j = acc.1.heap j) ∧
      (∀ r ∈ (l.foldl (partitionLoopStep t rowsId) acc).1.arr rowsId,
        base ≤ r) := by
  intro l
  induction l with
  | nil =>
    intro acc hb hr1 hr2 hc harr
    exact ⟨fun j hj => rfl, harr⟩
  | cons i l ih =>
    intro acc hb hr1 hr2 hc harr
    rw [List.foldl_cons]
    obtain ⟨s1, s2, s3, s4, s5, s6⟩ :=
      partitionLoopStep_spec t rowsId base hrb acc i hb hr1 hr2 hc harr
    obtain ⟨h1, h2⟩ := ih (partitionLoopStep t rowsId acc i) s2 s3 s4 s5 s6
    refine ⟨?_, h2⟩
    intro j hj
    rw [h1 j hj, s1 j hj]

theorem Store.alloc_arr_self (st : Store) (L : List ℕ) :
    (st.alloc (.arr L)).1.arr st.next = L := by
  simp [Store.alloc, Store.arr]

/-- The treemap preparation phase never writes below the entry
watermark. -/
theorem treemapPrepH_preserves_below (st : Store) (a : ℕ)
    (W H gap : ℚ) :
    ∀ j, j < st.next → (treemapPrepH st a W H gap).1.heap j = st.heap j := by
  intro j hj
  obtain ⟨hc1, hc2, hc3⟩ :=
    treemapCloneFold_spec st.next (st.arr a) st [] (le_refl _)
  unfold treemapPrepH
  dsimp only
  set clone := (st.arr a).foldl treemapCloneStep (st, []) with hclone
  set st2p := clone.1.alloc (HeapVal.arr clone.2) with hst2
  have hw : st2p.2 = clone.1.next := by
    rw [hst2, Store.alloc_snd]
  have htargets : ∀ i ∈ st2p.1.arr st2p.2, st.next ≤ i := by
    intro i hi
    have harrw : st2p.1.arr st2p.2 = clone.2 := by
      rw [hst2]
      exact Store.alloc_arr_self clone.1 clone.2
    rw [harrw] at hi
    rcases hc3 i hi with h | h
    · simp at h
    · exact h
  have hnf := treemapNormFold_spec st.next
    (((st2p.1.arr st2p.2).map (fun i => (st2p.1.item i).area.getD 0)).sum)
    ((W - gap * 2) * (H - gap * 2))
    (st2p.1.arr st2p.2) st2p.1 htargets
  rw [Store.write_heap_ne _ _ _ j (by rw [hw]; omega)]
  rw [hnf.1 j hj]
  rw [hst2]
  rw [Store.alloc_heap_below clone.1 _ j (by omega)]
  exact hc1 j hj

/-- The pack preparation phase never writes below the entry watermark. -/
theorem packPrepH_preserves_below (st : Store) (a : ℕ) (W H : ℚ) :
    ∀ j, j < st.next → (packPrepH st a W H).1.heap j = st.heap j := by
  intro j hj
  obtain ⟨hc1, hc2⟩ := packCloneFold_spec
    (ratSqrt (W * H / (((st.arr a).length : ℕ) : ℚ))) st.next
    (st.arr a) st [] (le_refl _)
  unfold packPrepH
  dsimp only
  set clone := (st.arr a).foldl
    (packCloneStep (ratSqrt (W * H / (((st.arr a).length : ℕ) : ℚ))))
    (st, []) with hclone
  set st2p := clone.1.alloc (HeapVal.arr clone.2) with hst2
  have hw : st2p.2 = clone.1.next := by
    rw [hst2, Store.alloc_snd]
  rw [Store.write_heap_ne _ _ _ j (by rw [hw]; omega)]
  rw [hst2]
  rw [Store.alloc_heap_below clone.1 _ j (by omega)]
  exact hc1 j hj

/-- The row partitioner's heap phase never writes below the entry
watermark. -/
theorem partitionIntoRowsH_preserves_below (st : Store) (a : ℕ)
    (W H gap : ℚ) :
    ∀ j, j < st.next →
      (partitionIntoRowsH st a W H gap).1.heap j = st.heap j := by
  intro j hj
  unfold partitionIntoRowsH
  dsimp only
  set p1 := st.alloc (HeapVal.arr (st.arr a)) with hp1
  set st1 := p1.1.write p1.2 (HeapVal.arr ((p1.1.arr p1.2).mergeSort
    (fun u v => (p1.1.item v).aspect ≤ (p1.1.item u).aspect))) with hst1
  set p2 := st1.alloc (HeapVal.arr []) with hp2
  set p3 := p2.1.alloc (HeapVal.arr []) with hp3
  set t := jsCeil (((st.arr a).length : ℚ) / max 1 (jsRound (ratSqrt
    (((st.arr a).length : ℚ) / (W / H
      / (((st.arr a).map (fun i => (st.item i).aspect)).sum
        / ((st.arr a).length : ℚ))))))) with ht
  set loop := (st1.arr p1.2).foldl (partitionLoopStep t p2.2)
    (p3.1, p3.2) with hloop
  have hp1snd : p1.2 = st.next := by
    rw [hp1, Store.alloc_snd]
  have hp1next : p1.1.next = st.next + 1 := by
    rw [hp1, Store.alloc_next]
  have hst1next : st1.next = st.next + 1 := by
    rw [hst1, Store.write_next, hp1next]
  have hp2snd : p2.2 = st.next + 1 := by
    rw [hp2, Store.alloc_snd, hst1next]
  have hp2next : p2.1.next = st.next + 2 := by
    rw [hp2, Store.alloc_next, hst1next]
  have hp3snd : p3.2 = st.next + 2 := by
    rw [hp3, Store.alloc_snd, hp2next]
  have hp3next : p3.1.next = st.next + 3 := by
    rw [hp3, Store.alloc_next, hp2next]
  have hA : ∀ k, k < st.next → p3.1.heap k = st.heap k := by
    intro k hk
    rw [hp3, Store.alloc_heap_below p2.1 _ k (by omega)]
    rw [hp2, Store.alloc_heap_below st1 _ k (by omega)]
    rw [hst1, Store.write_heap_ne _ _ _ k (by omega)]
    rw [hp1]
    exact Store.alloc_heap_below st _ k hk
  have hrows0 : p3.1.arr p2.2 = [] := by
    rw [hp3, Store.arr_congr p2.1 _ p2.2
      (Store.alloc_heap_below p2.1 _ p2.2 (by omega))]
    rw [hp2, Store.alloc_snd]
    exact Store.alloc_arr_self st1 []
  obtain ⟨hl1, hl2⟩ := partitionLoopFold_spec t p2.2 st.next (by omega)
    (st1.arr p1.2) (p3.1, p3.2)
    (by dsimp only; omega)
    (by dsimp only; omega)
    (by dsimp only; omega)
    (by dsimp only; omega)
    (by
      intro r hr
      have hr' : r ∈ p3.1.arr p2.2 := hr
      rw [hrows0] at hr'
      simp at hr')
  have hloop1 : ∀ k, k < st.next → loop.1.heap k = st.heap k := by
    intro k hk
    rw [hloop, hl1 k hk]
    exact hA k hk
  have hloop2 : ∀ r ∈ loop.1.arr p2.2, st.next ≤ r := by
    intro r hr
    apply hl2
    rw [← hloop]
    exact hr
  split
  · exact hloop1 j hj
  · split
    · rename_i hcond
      split
      · have hprev : (loop.1.arr p2.2).getLast?.getD 0 ∈ loop.1.arr p2.2 :=
          getLast_getD_mem _ (by
            intro hc
            rw [hc] at hcond
            simp at hcond)
        have hge := hloop2 _ hprev
        rw [Store.write_heap_ne _ _ _ j (by omega)]
        exact hloop1 j hj
      · rw [Store.write_heap_ne _ _ _ j (by omega)]
        exact hloop1 j hj
    · rw [Store.write_heap_ne _ _ _ j (by omega)]
      exact hloop1 j hj

/-- C8: no engine phase mutates caller-owned data.  For any heap whose
caller-owned array (address `a`) and item records all live below the
allocation watermark, the treemap preparation (clone + weight default +
in-place normalization + in-place sort), the pack preparation (clone +
in-place sort) and the row partitioner (array copy + in-place sort of the
copy + chunking into fresh row arrays) leave the caller's array contents,
order and length, and every caller-owned item's `index`, `aspect` and
`area` fields exactly as they were: all their writes target records and
arrays freshly created by `({...item, ...})` clones, `[...items]` copies
or `.map(...)` results, which live at or above the watermark.  (The
remaining algorithm phases only read their items, as their pure
embeddings above express directly.) -/
theorem C8_no_caller_mutation (st : Store) (a : ℕ) (W H gap : ℚ)
    (ha : a < st.next) (hitems : ∀ i ∈ st.arr a, i < st.next) :
    ((treemapPrepH st a W H gap).1.arr a = st.arr a ∧
      ∀ i ∈ st.arr a, (treemapPrepH st a W H gap).1.item i = st.item i) ∧
    ((packPrepH st a W H).1.arr a = st.arr a ∧
      ∀ i ∈ st.arr a, (packPrepH st a W H).1.item i = st.item i) ∧
    ((partitionIntoRowsH st a W H gap).1.arr a = st.arr a ∧
      ∀ i ∈ st.arr a, (partitionIntoRowsH st a W H gap).1.item i = st.item i) := by
  refine ⟨⟨?_, ?_⟩, ⟨?_, ?_⟩, ⟨?_, ?_⟩⟩
  · exact Store.arr_congr st _ a (treemapPrepH_preserves_below st a W H gap a ha)
  · intro i hi
    exact Store.item_congr st _ i
      (treemapPrepH_preserves_below st a W H gap i (hitems i hi))
  · exact Store.arr_congr st _ a (packPrepH_preserves_below st a W H a ha)
  · intro i hi
    exact Store.item_congr st _ i
      (packPrepH_preserves_below st a W H i (hitems i hi))
  · exact Store.arr_congr st _ a
      (partitionIntoRowsH_preserves_below st a W H gap a ha)
  · intro i hi
    exact Store.item_congr st _ i
      (partitionIntoRowsH_preserves_below st a W H gap i (hitems i hi))

/-- Closed witness for `C8_no_caller_mutation`: a two-address heap with
one caller array at address 0 holding one item record at address 1. -/
theorem C8_no_caller_mutation_witness :
    ((treemapPrepH
        { heap := fun n => if n = 0 then HeapVal.arr [1]
            else HeapVal.item ⟨3, 2, none⟩, next := 2 } 0 10 10 0).1.arr 0
      = ({ heap := fun n => if n = 0 then HeapVal.arr [1]
            else HeapVal.item ⟨3, 2, none⟩, next := 2 } : Store).arr 0 ∧
      (treemapPrepH
          { heap := fun n => if n = 0 then HeapVal.arr [1]
              else HeapVal.item ⟨3, 2, none⟩, next := 2 } 0 10 10 0).1.item 1
        = ({ heap := fun n => if n = 0 then HeapVal.arr [1]
            else HeapVal.item ⟨3, 2, none⟩, next := 2 } : Store).item 1) ∧
    ((packPrepH
        { heap := fun n => if n = 0 then HeapVal.arr [1]
            else HeapVal.item ⟨3, 2, none⟩, next := 2 } 0 10 10).1.arr 0
      = ({ heap := fun n => if n = 0 then HeapVal.arr [1]
            else HeapVal.item ⟨3, 2, none⟩, next := 2 } : Store).arr 0 ∧
      (packPrepH
          { heap := fun n => if n = 0 then HeapVal.arr [1]
              else HeapVal.item ⟨3, 2, none⟩, next := 2 } 0 10 10).1.item 1
        = ({ heap := fun n => if n = 0 then HeapVal.arr [1]
            else HeapVal.item ⟨3, 2, none⟩, next := 2 } : Store).item 1) ∧
    ((partitionIntoRowsH
        { heap := fun n => if n = 0 then HeapVal.arr [1]
            else HeapVal.item ⟨3, 2, none⟩, next := 2 } 0 10 10 0).1.arr 0
      = ({ heap := fun n => if n = 0 then HeapVal.arr [1]
            else HeapVal.item ⟨3, 2, none⟩, next := 2 } : Store).arr 0 ∧
      (partitionIntoRowsH
          { heap := fun n => if n = 0 then HeapVal.arr [1]
              else HeapVal.item ⟨3, 2, none⟩, next := 2 } 0 10 10 0).1.item 1
        = ({ heap := fun n => if n = 0 then HeapVal.arr [1]
            else HeapVal.item ⟨3, 2, none⟩, next := 2 } : Store).item 1) :=
  have hmem : (1 : ℕ) ∈ (Store.mk
      (fun n => if n = 0 then HeapVal.arr [1]
        else HeapVal.item ⟨3, 2, none⟩) 2).arr 0 := by
    show (1 : ℕ) ∈ [1]
    exact List.mem_singleton.mpr rfl
  have h := C8_no_caller_mutation
    (Store.mk (fun n => if n = 0 then HeapVal.arr [1]
      else HeapVal.item ⟨3, 2, none⟩) 2) 0 10 10 0
    (by norm_num)
    (by
      intro i hi
      have hi' : i ∈ [1] := hi
      rw [List.mem_singleton] at hi'
      subst hi'
      exact (by norm_num : (1 : ℕ) < 2))
  ⟨⟨h.1.1, h.1.2 1 hmem⟩, ⟨h.2.1.1, h.2.1.2 1 hmem⟩,
    ⟨h.2.2.1, h.2.2.2 1 hmem⟩⟩
